import Mathlib

/-!
# Verification of the fkie_iop_json_connector message serializer and transport

A shallow embedding of the Python sources of `fkie_iop_json_connector`:

* `message_serializer.py` — the schema-driven binary codec
  (`MessageSerializer.pack` / `unpack` / `_addProperties` / `_getProperties`),
* `transport/udp_uc.py` — the UDP transport send/receive loops,
* `server.py` — the WebSocket client handler state.

Python values parsed from JSON are modelled by `JValue` (numbers as exact
rationals, strings as byte lists), schemas by `Schema`.  Exceptions are
modelled with `Except String`; the recursion of the codec is driven by an
explicit `fuel` argument modelling Python's recursion limit (the walk
consumes one unit per object level, so any fuel of at least `sizeOf` of the
schema suffices).

Parts of the repository referenced by the sources but not present in them
(`jaus_address.py`, `message.py`, `address_book.py`, the schema JSON files)
are modelled from the specification; each such definition carries a doc
comment starting with `Modelled from the spec:`.

The model covers the schema fragment exercised by the claims: objects
(including bit fields and presence vectors), numbers (with scaleRange and
bitRange), strings (message-id constants, enums with value sets, fixed and
variable length) and arrays (homogeneous lists and the variant encode
asymmetry).  Nested `fieldFormat == "JAUS MESSAGE"` payload objects and the
IEEE-754 float formats are outside the model.
-/

namespace IopJson

/-! ## Byte-level primitives (`struct.pack` / `struct.unpack`) -/

/-- Little-endian byte list of `n` in `w` bytes (the layout produced by the
little-endian integer formats of `struct.pack`). -/
def toLE : Nat → Nat → List Nat
  | 0, _ => []
  | w + 1, n => (n % 256) :: toLE w (n / 256)

/-- Value of a little-endian byte list. -/
def fromLE : List Nat → Nat
  | [] => 0
  | b :: bs => b + 256 * fromLE bs

theorem toLE_length (w n : Nat) : (toLE w n).length = w := by
  induction w generalizing n with
  | zero => rfl
  | succ w ih => simp [toLE, ih]

theorem fromLE_toLE (w n : Nat) (h : n < 256 ^ w) : fromLE (toLE w n) = n := by
  induction w generalizing n with
  | zero =>
    simp only [pow_zero] at h
    simp only [toLE, fromLE]
    omega
  | succ w ih =>
    have hlt : n / 256 < 256 ^ w := by
      apply Nat.div_lt_of_lt_mul
      calc n < 256 ^ (w + 1) := h
        _ = 256 * 256 ^ w := by ring
    simp only [toLE, fromLE, ih (n / 256) hlt]
    omega

theorem fromLE_lt (bs : List Nat) (h : ∀ b, b ∈ bs → b < 256) :
    fromLE bs < 256 ^ bs.length := by
  induction bs with
  | nil => simp [fromLE]
  | cons b bs ih =>
    have hb : b < 256 := h b (List.mem_cons_self b bs)
    have hrest := ih (fun x hx => h x (List.mem_cons_of_mem b hx))
    simp only [fromLE, List.length_cons, pow_succ]
    calc b + 256 * fromLE bs < 256 + 256 * fromLE bs := by omega
      _ ≤ 256 * 256 ^ bs.length := by
          have : fromLE bs + 1 ≤ 256 ^ bs.length := hrest
          nlinarith
      _ = 256 ^ bs.length * 256 := by ring

/-! ## JAUS wire primitives

`MessageSerializer.JAUS_TYPES` gives the nominal byte size of each type and
`PACK_FORMAT_FROM_JAUS` the `struct` format actually used.  Note that the
source maps `long integer` to format `<l` and `unsigned long integer` to
`<L`, both of which are 4 bytes wide, while `JAUS_TYPES` declares 8 — the
model keeps both tables.  The float formats and the `string` entry of
`JAUS_TYPES` are not modelled. -/

inductive JausTy where
  | byte
  | shortInteger
  | integer
  | longInteger
  | ubyte
  | ushortInteger
  | uintInteger
  | ulongInteger
deriving DecidableEq, Repr

/-- `MessageSerializer.JAUS_TYPES` (nominal size, used by `_getTypeSize`). -/
def JausTy.size : JausTy → Nat
  | .byte => 1
  | .shortInteger => 2
  | .integer => 4
  | .longInteger => 8
  | .ubyte => 1
  | .ushortInteger => 2
  | .uintInteger => 4
  | .ulongInteger => 8

/-- Byte width of the `struct` format in `PACK_FORMAT_FROM_JAUS`
(`<l` and `<L` are 4 bytes wide). -/
def JausTy.packWidth : JausTy → Nat
  | .byte => 1
  | .shortInteger => 2
  | .integer => 4
  | .longInteger => 4
  | .ubyte => 1
  | .ushortInteger => 2
  | .uintInteger => 4
  | .ulongInteger => 4

/-- Signedness of the `struct` format. -/
def JausTy.signed : JausTy → Bool
  | .byte => true
  | .shortInteger => true
  | .integer => true
  | .longInteger => true
  | .ubyte => false
  | .ushortInteger => false
  | .uintInteger => false
  | .ulongInteger => false

theorem JausTy.packWidth_pos (ty : JausTy) : 1 ≤ ty.packWidth := by
  cases ty <;> decide

/-- Range accepted by `struct.pack` for the format of `ty`. -/
def inRange (ty : JausTy) (v : Int) : Bool :=
  if ty.signed then
    decide (-(2 ^ (8 * ty.packWidth - 1)) ≤ v) && decide (v < 2 ^ (8 * ty.packWidth - 1))
  else
    decide (0 ≤ v) && decide (v < 2 ^ (8 * ty.packWidth))

/-- `struct.pack(fmt, v)` for an integer format: little-endian two's
complement bytes, or `struct.error` when the value is out of range. -/
def structPack (ty : JausTy) (v : Int) : Except String (List Nat) :=
  if inRange ty v then
    .ok (toLE ty.packWidth ((v % (2 ^ (8 * ty.packWidth))).toNat))
  else
    .error "struct.error: argument out of range"

/-- `struct.unpack(fmt, bs)` for an integer format: requires a buffer of
exactly the format width. -/
def structUnpack (ty : JausTy) (bs : List Nat) : Except String Int :=
  if bs.length = ty.packWidth then
    let n : Int := (fromLE bs : Nat)
    if ty.signed ∧ 2 ^ (8 * ty.packWidth - 1) ≤ n then .ok (n - 2 ^ (8 * ty.packWidth))
    else .ok n
  else
    .error "struct.error: unpack requires a buffer of the format size"

theorem structPack_bytes_lt (ty : JausTy) (v : Int) (bs : List Nat)
    (h : structPack ty v = .ok bs) : ∀ b, b ∈ bs → b < 256 := by
  unfold structPack at h
  split at h
  · cases h
    intro b hb
    revert hb
    generalize (v % (2 ^ (8 * ty.packWidth))).toNat = m
    generalize ty.packWidth = w
    induction w generalizing m with
    | zero => simp [toLE]
    | succ w ih =>
      simp only [toLE, List.mem_cons]
      rintro (rfl | hb)
      · exact Nat.mod_lt _ (by omega)
      · exact ih _ hb
  · cases h

theorem int_emod_self_eq (a b : Int) (h1 : 0 ≤ a) (h2 : a < b) : a % b = a :=
  Int.emod_eq_of_lt h1 h2

theorem int_emod_add_pow (v p : Int) : (v + p) % p = v % p := by
  have h := Int.add_mul_emod_self_left (a := v) (b := p) (c := 1)
  rw [mul_one] at h
  exact h

theorem inRange_signed (ty : JausTy) (v : Int) (h : inRange ty v = true)
    (hs : ty.signed = true) :
    -(2 ^ (8 * ty.packWidth - 1)) ≤ v ∧ v < 2 ^ (8 * ty.packWidth - 1) := by
  unfold inRange at h
  rw [hs] at h
  simpa using h

theorem inRange_unsigned (ty : JausTy) (v : Int) (h : inRange ty v = true)
    (hs : ty.signed = false) : 0 ≤ v ∧ v < 2 ^ (8 * ty.packWidth) := by
  unfold inRange at h
  rw [hs] at h
  simpa using h

theorem structUnpack_structPack (ty : JausTy) (v : Int) (h : inRange ty v = true) :
    ∃ bs, structPack ty v = .ok bs ∧ bs.length = ty.packWidth ∧
      structUnpack ty bs = .ok v := by
  have hw : 1 ≤ ty.packWidth := ty.packWidth_pos
  have hhalf : (2:Int) ^ (8 * ty.packWidth) = 2 * 2 ^ (8 * ty.packWidth - 1) := by
    obtain ⟨e, he⟩ : ∃ e, 8 * ty.packWidth = e + 1 := ⟨8 * ty.packWidth - 1, by omega⟩
    rw [he, pow_succ]
    have h1 : e + 1 - 1 = e := rfl
    rw [h1]
    ring
  have hpowpos : (0:Int) < 2 ^ (8 * ty.packWidth) := by positivity
  have hmod0 : 0 ≤ v % (2 ^ (8 * ty.packWidth)) := Int.emod_nonneg v (by omega)
  have hmodlt : v % (2 ^ (8 * ty.packWidth)) < 2 ^ (8 * ty.packWidth) :=
    Int.emod_lt_of_pos v hpowpos
  have hnatlt : (v % (2 ^ (8 * ty.packWidth))).toNat < 256 ^ ty.packWidth := by
    have h2 : ((2:Int) ^ (8 * ty.packWidth)) = ((256 ^ ty.packWidth : Nat) : Int) := by
      push_cast
      rw [pow_mul]
      norm_num
    omega
  refine ⟨toLE ty.packWidth ((v % (2 ^ (8 * ty.packWidth))).toNat), ?_, toLE_length _ _, ?_⟩
  · unfold structPack
    rw [h]
    rfl
  · have hval : ((fromLE (toLE ty.packWidth ((v % (2 ^ (8 * ty.packWidth))).toNat)) : Nat) : Int)
        = v % (2 ^ (8 * ty.packWidth)) := by
      rw [fromLE_toLE _ _ hnatlt]
      omega
    unfold structUnpack
    split
    case isFalse hc => exact absurd (toLE_length _ _) hc
    case isTrue hc =>
      simp only [hval]
      cases hs : ty.signed with
      | true =>
        obtain ⟨hlo, hhi⟩ := inRange_signed ty v h hs
        by_cases hneg : 0 ≤ v
        · have hself : v % (2 ^ (8 * ty.packWidth)) = v :=
            int_emod_self_eq _ _ hneg (by omega)
          rw [hself]
          split
          next hcon => exact absurd hcon.2 (by omega)
          next hcon => rfl
        · have hself : v % (2 ^ (8 * ty.packWidth)) = v + 2 ^ (8 * ty.packWidth) := by
            rw [← int_emod_add_pow v (2 ^ (8 * ty.packWidth))]
            exact int_emod_self_eq _ _ (by omega) (by omega)
          rw [hself]
          split
          next hcon =>
            congr 1
            omega
          next hcon =>
            exact absurd ⟨rfl, by omega⟩ hcon
      | false =>
        obtain ⟨hlo, hhi⟩ := inRange_unsigned ty v h hs
        have hself : v % (2 ^ (8 * ty.packWidth)) = v := int_emod_self_eq _ _ hlo hhi
        rw [hself]
        split
        next hcon => exact absurd hcon.1 (by simp)
        next hcon => rfl

/-! ## Python-semantics helpers -/

/-- Python's `round(x, 0)` — round half to even — on exact rationals. -/
def pyRound (q : ℚ) : Int :=
  if q - ⌊q⌋ < 1/2 then ⌊q⌋
  else if 1/2 < q - ⌊q⌋ then ⌊q⌋ + 1
  else if ⌊q⌋ % 2 = 0 then ⌊q⌋ else ⌊q⌋ + 1

theorem pyRound_dist (q : ℚ) : |((pyRound q : Int) : ℚ) - q| ≤ 1/2 := by
  unfold pyRound
  have h1 : ((⌊q⌋ : Int) : ℚ) ≤ q := Int.floor_le q
  have h2 : q < ((⌊q⌋ : Int) : ℚ) + 1 := Int.lt_floor_add_one q
  rw [abs_le]
  split
  next h => constructor <;> linarith
  next h =>
    split
    next h3 => constructor <;> push_cast <;> linarith
    next h3 =>
      split <;> constructor <;> push_cast <;> linarith

/-- Python's `>>` on (possibly negative) integers: floor division by `2 ^ k`. -/
def pyShr (v : Int) (k : Nat) : Int := Int.fdiv v (2 ^ k)

/-- Python's `a & (1 << k)` on an arbitrary integer `a` (infinite two's
complement): bit `k` of `a`, scaled by `2 ^ k`. -/
def pyAndPow2 (a : Int) (k : Nat) : Int := (Int.fdiv a (2 ^ k)) % 2 * 2 ^ k

/-- `sum of value & (1 << bit) for bit in range(a, b + 1)` — the loop used by
`_getProperties` for `bitRange` fields. -/
def bitRangeSum (v : Int) (a b : Nat) : Int :=
  ((List.range' a (b + 1 - a)).map (fun bit => pyAndPow2 v bit)).sum

/-- Python's `bytes.rstrip(b'\x00')`. -/
def rstripNul (s : List Nat) : List Nat :=
  (s.reverse.dropWhile (fun b => b == 0)).reverse

theorem rstripNul_append_zero (s : List Nat) : rstripNul (s ++ [0]) = rstripNul s := by
  unfold rstripNul
  simp [List.dropWhile]

theorem rstripNul_append_zeros (s : List Nat) (k : Nat) :
    rstripNul (s ++ List.replicate k 0) = rstripNul s := by
  induction k generalizing s with
  | zero => simp
  | succ k ih =>
    have h : List.replicate (k + 1) 0 = 0 :: List.replicate k 0 := rfl
    rw [h, show s ++ 0 :: List.replicate k 0 = (s ++ [0]) ++ List.replicate k 0 by simp,
      ih (s ++ [0]), rstripNul_append_zero]

theorem rstripNul_eq_self (s : List Nat) (h : s.getLast? ≠ some 0) : rstripNul s = s := by
  unfold rstripNul
  rw [← List.head?_reverse] at h
  cases hs : s.reverse with
  | nil =>
    have : s = [] := by simpa using congrArg List.reverse hs
    simp [this, hs]
  | cons b t =>
    rw [hs] at h
    have hb : (b == 0) = false := by
      simp only [List.head?] at h
      simp only [beq_eq_false_iff_ne, ne_eq]
      intro hb0
      exact h (by rw [hb0])
    rw [List.dropWhile_cons_of_neg (by simp [hb])]
    rw [← hs]
    simp

/-- The `bytes`-argument behaviour of `struct.pack(str(n) + "s", b)`:
exactly `n` bytes — truncate or NUL-pad on the right. -/
def packBytes (n : Nat) (s : List Nat) : List Nat :=
  s.take n ++ List.replicate (n - s.length) 0

/-- A Python value handed to `struct.pack` for an `'s'` format: Python 3
distinguishes `str` (what `json.loads` yields for every JSON string) from
`bytes`. -/
inductive PyStrArg
  | str (cs : List Nat)
  | bytes (bs : List Nat)

/-- `struct.pack(str(n) + "s", v)`: the `'s'` format requires a `bytes`
object, so a `str` argument raises `struct.error` (the type check comes
before any length handling); a `bytes` argument is truncated or NUL-padded
on the right to exactly `n` bytes. -/
def structPackS (n : Nat) : PyStrArg → Except String (List Nat)
  | .str _ => .error "struct.error: argument for s must be a bytes object"
  | .bytes bs => .ok (packBytes n bs)

/-- Clamping of one Python slice index against a list of length `n`. -/
def pyIdx (n i : Int) : Int :=
  if i < 0 then max 0 (n + i) else min i n

/-- Python's `l[start:stop]` slice (step 1) with clamping and negative-index
wraparound. -/
def pySlice (l : List Nat) (start stop : Int) : List Nat :=
  (l.drop (pyIdx l.length start).toNat).take
    (pyIdx l.length stop - pyIdx l.length start).toNat

theorem pyIdx_nat (n : Int) (a : Nat) : pyIdx n (a : Nat) = min (a : Int) n := by
  unfold pyIdx
  rw [if_neg (by omega)]

theorem pySlice_formula (l : List Nat) (a b : Nat) (hb : b ≤ l.length) :
    pySlice l (a : Int) (b : Int) = (l.drop a).take (b - a) := by
  unfold pySlice
  rw [pyIdx_nat, pyIdx_nat]
  by_cases hab : a ≤ l.length
  · have hs : min (a : Int) (l.length : Int) = (a : Int) := by omega
    have he : min (b : Int) (l.length : Int) = (b : Int) := by omega
    rw [hs, he]
    have e1 : ((a : Int)).toNat = a := by omega
    have e2 : ((b : Int) - (a : Int)).toNat = b - a := by omega
    rw [e1, e2]
  · have hs : min (a : Int) (l.length : Int) = (l.length : Int) := by omega
    have he : min (b : Int) (l.length : Int) = (b : Int) := by omega
    rw [hs, he]
    have hd1 : l.drop ((l.length : Int)).toNat = [] := by
      simp
    have hd2 : l.drop a = [] := List.drop_eq_nil_of_le (by omega)
    rw [hd1, hd2]
    simp

/-- Reading exactly the bytes of `mid` when it sits at offset `pre.length`. -/
theorem pySlice_exact (pre mid rest : List Nat) :
    pySlice (pre ++ (mid ++ rest)) (pre.length : Int)
      ((pre.length : Int) + (mid.length : Int)) = mid := by
  have hlen : (pre ++ (mid ++ rest)).length = pre.length + mid.length + rest.length := by
    simp
    omega
  have hcast : (pre.length : Int) + (mid.length : Int) = ((pre.length + mid.length : Nat) : Int) := by
    push_cast
    ring
  rw [hcast, pySlice_formula _ _ _ (by omega)]
  rw [List.drop_left]
  have h1 : pre.length + mid.length - pre.length = mid.length := by omega
  rw [h1, List.take_left]

/-- Python list indexing `l[i]` including negative-index wraparound;
`none` models `IndexError`. -/
def pyListGet {α : Type} (l : List α) (i : Int) : Option α :=
  if 0 ≤ i then l[i.toNat]?
  else if 0 ≤ i + l.length then l[(i + l.length).toNat]? else none

/-! ## Hex formatting (`f"{n:x}"` and `str.zfill`) -/

def hexDigitChar (n : Nat) : Char :=
  if n < 10 then Char.ofNat (48 + n) else Char.ofNat (87 + n)

def natToHexAux : Nat → Nat → List Char
  | 0, _ => []
  | fuel + 1, n =>
    if n < 16 then [hexDigitChar n]
    else natToHexAux fuel (n / 16) ++ [hexDigitChar (n % 16)]

/-- `f"{n:x}"` for a nonnegative integer: lowercase hex, no padding. -/
def natToHexChars (n : Nat) : List Char := natToHexAux (n + 1) n

def natToHexString (n : Nat) : String := String.mk (natToHexChars n)

/-- `str.zfill(4)` for the strings produced above. -/
def zfill4 (s : String) : String :=
  if s.length < 4 then String.mk (List.replicate (4 - s.length) '0') ++ s else s

/-- `f"{i:x}"` for a possibly negative integer, as ASCII byte values
(the decoded `MessageID` value is stored as a hex string). -/
def intToHexAscii (i : Int) : List Nat :=
  if i < 0 then 45 :: (natToHexChars (-i).toNat).map Char.toNat
  else (natToHexChars i.toNat).map Char.toNat

/-! ## JSON value trees and schemas

`JValue` models the Python values the serializer walks: JSON objects parsed
with `object_hook=SimpleNamespace` on the encode side and plain dicts on the
decode side.  Numbers are exact rationals (`den = 1` ↔ a Python `int`),
strings are byte lists. -/

inductive JValue where
  | num (q : ℚ)
  | str (bytes : List Nat)
  | arr (elems : List JValue)
  | obj (fields : List (String × JValue))


/-- Property dictionary of a decoded message (`data` in `unpack`). -/
abbrev Fields := List (String × JValue)

/-- `getattr(jsonObj, name)` / `hasattr(jsonObj, name)` on the parsed input
(objects are `SimpleNamespace`s; other values have no such attributes). -/
def getattrJ (v : JValue) (name : String) : Option JValue :=
  match v with
  | .obj fields => fields.lookup name
  | _ => none

/-- Python dict assignment `d[k] = v`: update in place preserving insertion
order, appending when the key is new. -/
def dictSet : Fields → String → JValue → Fields
  | [], n, v => [(n, v)]
  | (k, w) :: rest, n, v =>
    if k = n then (k, v) :: rest else (k, w) :: dictSet rest n v

/-- `{bias, scaleFactor}` of a `scaleRange` attribute. -/
structure ScaleRange where
  bias : ℚ
  scaleFactor : ℚ


/-- `{from, to}` of a `bitRange` attribute (`from`/`to` are Lean keywords). -/
structure BitRange where
  bFrom : Nat
  bTo : Nat


/-- A schema node as walked by `_addProperties` / `_getProperties`.

Optional JSON attributes become `Option` fields; accessing a missing
attribute raises `AttributeError` exactly where the source would.  Notes:

* `const` holds the already-parsed `int(property.const, 16)` value of the
  hex literal carried by the source schema;
* `valueSet` merges the source's `enum` + `valueSet` pair; entries without a
  `valueEnum` member (skipped by the source loops) are `none`, others carry
  `(enumIndex, enumConst as bytes)`;
* `anyOf` is the flattened `items.anyOf` list of an array schema;
* objects with `fieldFormat` (nested JAUS payloads) are outside the model. -/
inductive Schema where
  | obj (required : Option (List String)) (properties : List (String × Schema))
        (bitField : Option JausTy)
  | num (jausType : JausTy) (scaleRange : Option ScaleRange) (bitRange : Option BitRange)
  | str (jausType : Option JausTy) (const : Option Nat)
        (valueSet : Option (List (Option (Int × List Nat))))
        (bitRange : Option BitRange)
        (minLength : Option Nat) (maxLength : Option Nat)
  | arr (jausType : Option JausTy) (isVariant : Option Bool) (anyOf : List Schema)
        (minItems : Option Nat) (maxItems : Option Nat)


/-! ## Encoder — `MessageSerializer._addProperties` (message_serializer.py:138-290)

The walk returns the bytes appended to `message.payload` (append-only) and
either the final `bitFieldValue` or the exception raised; on an exception
the bytes appended before the raise are still reported, modelling the
partial mutation of the `Message`.  The `fuel` of the top entry point
models Python's recursion limit and decreases once per object level. -/

/-- Loop body of `_generatePresenceVector` (lines 125-136): state is
`(presenceVector, presenceIndex)`, starting at `(0, 0)`; `presenceIndex`
becomes 1 at the property named `presenceVector` and shifts left after each
optional property. -/
def genPVGo (jsonObj : JValue) (required : Option (List String)) :
    List (String × Schema) → Nat → Nat → Except String Nat
  | [], pv, _pi => .ok pv
  | (name, _) :: rest, pv, pi =>
    if name = "presenceVector" then genPVGo jsonObj required rest pv 1
    else
      match required with
      | none => .error "AttributeError: required"
      | some req =>
        if req.contains name then genPVGo jsonObj required rest pv pi
        else
          genPVGo jsonObj required rest
            (if (getattrJ jsonObj name).isSome then pv ||| pi else pv) (pi <<< 1)

/-- `MessageSerializer._generatePresenceVector`. -/
def generatePresenceVector (jsonObj : JValue) (required : Option (List String))
    (allProps : List (String × Schema)) : Except String Nat :=
  genPVGo jsonObj required allProps 0 0

/-- Resolution of a value-set input (lines 231-240): an `int` input is used
directly, a string input is matched against `enumConst` (last match wins),
anything else leaves the initial 0. -/
def enumResolve (vs : List (Option (Int × List Nat))) (valueStr : Option JValue) : Int :=
  match valueStr with
  | some (.num q) => if q.den = 1 then q.num else 0
  | some (.str s) =>
    vs.foldl
      (fun acc e =>
        match e with
        | some (idx, cst) => if cst = s then idx else acc
        | none => acc) 0
  | _ => 0

/-- `str.ljust(n, '\x00')`. -/
def pyLjust (s : List Nat) (n : Nat) : List Nat :=
  s ++ List.replicate (n - s.length) 0

/-- The `for item in arrayObj` loop (lines 281-284); each element is encoded
against `items.anyOf[0]`. -/
def encItemsGo (recEnc : JValue → Schema → List Nat × Except String Int) :
    List JValue → List Schema → List Nat × Except String Unit
  | [], _ => ([], .ok ())
  | x :: xs, anyOf =>
    match anyOf with
    | [] => ([], .error "IndexError: anyOf")
    | s0 :: _ =>
      match recEnc x s0 with
      | (b1, .error e) => (b1, .error e)
      | (b1, .ok _) =>
        match encItemsGo recEnc xs anyOf with
        | (b2, r) => (b1 ++ b2, r)

/-- One encoded property (the body of the `for propertyName` loop of
`_addProperties`); `recEnc` is the recursive walk for sub-objects. -/
def encProp (recEnc : JValue → Schema → List Nat × Except String Int)
    (jsonObj : JValue) (required : Option (List String))
    (allProps : List (String × Schema))
    (propertyName : String) (property : Schema) (bitFieldValue : Int) :
    List Nat × Except String Int :=
  match property with
  | .obj _ _ bf2 =>
    -- lines 143-186; `fieldFormat` payload objects are outside the model
    match getattrJ jsonObj propertyName with
    | none => ([], .error "AttributeError: missing object property")
    | some child =>
      match bf2 with
      | some bfTy =>
        -- bit-field object: emit the accumulated integer once (lines 177-183)
        match recEnc child property with
        | (b1, .error e) => (b1, .error e)
        | (b1, .ok bitFieldResult) =>
          match structPack bfTy bitFieldResult with
          | .error e => (b1, .error e)
          | .ok packed => (b1 ++ packed, .ok bitFieldValue)
      | none =>
        match recEnc child property with
        | (b1, .error e) => (b1, .error e)
        | (b1, .ok _) => (b1, .ok bitFieldValue)
  | .num jausType scaleRangeO bitRangeO =>
    if propertyName = "presenceVector" then
      -- lines 189-195
      match generatePresenceVector jsonObj required allProps with
      | .error e => ([], .error e)
      | .ok pv =>
        match structPack jausType (pv : Int) with
        | .error e => ([], .error e)
        | .ok bs => (bs, .ok bitFieldValue)
    else
      -- lines 196-219
      match
        (match getattrJ jsonObj propertyName with
         | some v => .ok (some v)
         | none =>
           match required with
           | none => .error "AttributeError: required"
           | some req => .ok (if req.contains propertyName then some (.num 0) else none)
         : Except String (Option JValue)) with
      | .error e => ([], .error e)
      | .ok valueO =>
        match
          (match valueO with
           | none => .ok []
           | some (.num q) =>
             match scaleRangeO with
             | some sr =>
               if sr.scaleFactor = 0 then .error "ZeroDivisionError"
               else structPack jausType (pyRound ((q - sr.bias) / sr.scaleFactor))
             | none =>
               if q.den = 1 then structPack jausType q.num
               else .error "struct.error: required argument is not an integer"
           | some _ => .error "TypeError: not a number"
           : Except String (List Nat)) with
        | .error e => ([], .error e)
        | .ok bs =>
          match bitRangeO with
          | none => (bs, .ok bitFieldValue)
          | some br =>
            -- lines 214-219: re-fetch the raw value and fold it into the
            -- accumulator (the bytes above were still emitted)
            match getattrJ jsonObj propertyName with
            | none => (bs, .ok bitFieldValue)
            | some (.num q2) =>
              if q2.den = 1 then (bs, .ok (bitFieldValue + pyShr q2.num br.bFrom))
              else (bs, .error "TypeError: unsupported shift")
            | some _ => (bs, .error "TypeError: unsupported shift")
  | .str jausTypeO constO valueSetO bitRangeO minLO maxLO =>
    match constO, propertyName == "MessageID" with
    | some c, true =>
      -- lines 222-228: emit the parsed hex literal
      match jausTypeO with
      | none => ([], .error "AttributeError: jausType")
      | some ty =>
        match structPack ty (c : Int) with
        | .error e => ([], .error e)
        | .ok bs => (bs, .ok bitFieldValue)
    | _, _ =>
      match valueSetO with
      | some vs =>
        -- lines 229-248
        match getattrJ jsonObj propertyName with
        | valueStr =>
          match bitRangeO with
          | some br =>
            ([], .ok (bitFieldValue + pyShr (enumResolve vs valueStr) br.bFrom))
          | none =>
            match jausTypeO with
            | none => ([], .error "AttributeError: jausType")
            | some ty =>
              match structPack ty (enumResolve vs valueStr) with
              | .error e => ([], .error e)
              | .ok bs => (bs, .ok bitFieldValue)
      | none =>
        match minLO, maxLO with
        | some mn, some mx =>
          -- lines 249-271
          match
            (match getattrJ jsonObj propertyName with
             | none => .ok []
             | some (.str s) => .ok s
             | some _ => .error "TypeError: not a string"
             : Except String (List Nat)) with
          | .error e => ([], .error e)
          | .ok valueStr =>
            if mn = mx then
              -- lines 255-258, 269-271: `strLength = maxLength` and the
              -- value is NUL-padded with `str.ljust` — but it is still a
              -- Python 3 `str`, so for a positive fixed length
              -- `struct.pack(f'{strLength}s', valueStr)` raises before any
              -- byte is emitted
              if mx > 0 then
                match structPackS mx (.str (pyLjust valueStr mx)) with
                | .error e => ([], .error e)
                | .ok bs => (bs, .ok bitFieldValue)
              else ([], .ok bitFieldValue)
            else
              -- lines 259-271: the prefix carries maxLength (not the actual
              -- length!) and is appended first; then for a non-empty string
              -- `struct.pack(f'{strLength}s', valueStr)` raises on the `str`
              match jausTypeO with
              | none => ([], .error "AttributeError: jausType")
              | some ty =>
                match structPack ty (mx : Int) with
                | .error e => ([], .error e)
                | .ok pfxBytes =>
                  if min valueStr.length mx > 0 then
                    match structPackS (min valueStr.length mx) (.str valueStr) with
                    | .error e => (pfxBytes, .error e)
                    | .ok bs => (pfxBytes ++ bs, .ok bitFieldValue)
                  else (pfxBytes, .ok bitFieldValue)
        | _, _ => ([], .ok bitFieldValue)   -- no matching string kind: no-op
  | .arr jausTypeO isVariantO anyOf _ _ =>
    -- lines 272-284
    match getattrJ jsonObj propertyName with
    | none => ([], .error "UnboundLocalError: arrayObj")
    | some arrayObj =>
      match isVariantO with
      | none => ([], .error "AttributeError: isVariant")
      | some true => ([], .ok bitFieldValue)   -- variant: nothing emitted (§9)
      | some false =>
        match arrayObj with
        | .arr elems =>
          match jausTypeO with
          | none => ([], .error "AttributeError: jausType")
          | some ty =>
            match structPack ty (elems.length : Int) with
            | .error e => ([], .error e)
            | .ok lenBytes =>
              match encItemsGo recEnc elems anyOf with
              | (bI, .error e) => (lenBytes ++ bI, .error e)
              | (bI, .ok _) => (lenBytes ++ bI, .ok bitFieldValue)
        | _ => ([], .error "TypeError: object with no len()")

/-- The property loop of `_addProperties`, threading `bitFieldValue`. -/
def encPropsGo (recEnc : JValue → Schema → List Nat × Except String Int)
    (jsonObj : JValue) (required : Option (List String))
    (allProps : List (String × Schema)) :
    List (String × Schema) → Int → List Nat × Except String Int
  | [], bf => ([], .ok bf)
  | (n, p) :: rest, bf =>
    match encProp recEnc jsonObj required allProps n p bf with
    | (b1, .error e) => (b1, .error e)
    | (b1, .ok bf1) =>
      match encPropsGo recEnc jsonObj required allProps rest bf1 with
      | (b2, r) => (b1 ++ b2, r)

/-- `MessageSerializer._addProperties`: walk `schema.properties` in order;
non-object schemas raise `AttributeError` at `schema.properties`. -/
def addProperties : Nat → JValue → Schema → List Nat × Except String Int
  | 0, _, _ => ([], .error "RecursionError: maximum recursion depth exceeded")
  | fuel + 1, jsonObj, schema =>
    match schema with
    | .obj required props _ =>
      encPropsGo (fun v s => addProperties fuel v s) jsonObj required props props 0
    | _ => ([], .error "AttributeError: schema has no properties")

/-! ## Decoder — `MessageSerializer._getProperties` (message_serializer.py:301-448)

The walk reads `payload` from `index` (an `Int`, since a negative decoded
string length can move the offset backwards), mutating the result dict
`jsonObj` and threading the `presenceVector` state.  The state is
`(pv : Option ℚ, piExp : Nat)` where `presenceIndex = 2 ^ piExp` — the
source initialises `presenceIndex` to 1 at the `presenceVector` property and
only shifts it left afterwards, so it is always a power of two. -/

/-- Result of decoding one property: updated dict, offset and
presence-vector state. -/
abbrev DecStep := Fields × Int × Option ℚ × Nat

/-- The presence-vector gate at the top of the property loop
(lines 308-317): returns `(skip, new presenceIndex exponent)`. -/
def pvGate (pv : Option ℚ) (piExp : Nat) (required : Option (List String))
    (propertyName : String) : Except String (Bool × Nat) :=
  match pv with
  | none => .ok (false, piExp)
  | some pvVal =>
    match required with
    | none => .error "AttributeError: required"
    | some req =>
      if req.contains propertyName then .ok (false, piExp)
      else if pvVal.den = 1 then
        if pyAndPow2 pvVal.num piExp = 0 then .ok (true, piExp + 1)
        else .ok (false, piExp + 1)
      else .error "TypeError: presence vector is not an int"

/-- The item loop of a homogeneous array / fixed-count array
(lines 430-435 and 439-444): `count` fresh dicts decoded against
`items.anyOf[0]`. -/
def decItemsGo
    (recDec : Fields → List Nat → Int → Schema → Except String (Fields × Int))
    (payload : List Nat) : Nat → Int → List Schema → Except String (List JValue × Int)
  | 0, index, _ => .ok ([], index)
  | c + 1, index, anyOf =>
    match anyOf with
    | [] => .error "IndexError: anyOf"
    | s0 :: _ =>
      match recDec [] payload index s0 with
      | .error e => .error e
      | .ok (listItem, index1) =>
        match decItemsGo recDec payload c index1 anyOf with
        | .error e => .error e
        | .ok (items, index2) => .ok (JValue.obj listItem :: items, index2)

/-- The value-set lookup of the decoder (lines 409-411): the entry whose
`enumIndex` equals the wire value sets the property (last match wins);
no match leaves the dict untouched. -/
def decEnumSet (jsonObj : Fields) (propertyName : String)
    (vs : List (Option (Int × List Nat))) (idx : Int) : Fields :=
  match
    vs.foldl
      (fun acc e =>
        match e with
        | some (i, cst) => if i = idx then some cst else acc
        | none => acc) none with
  | some cst => dictSet jsonObj propertyName (.str cst)
  | none => jsonObj

/-- Tail of the string branch once the fixed-length case is ruled out
(lines 391-416): read the length/index integer, then dispatch on
`MessageID`-const, enum value set (with optional `bitRange` rewind) or a
plain length-prefixed string. -/
def decStrTail (jsonObj : Fields) (payload : List Nat) (index : Int)
    (propertyName : String) (jausTypeO : Option JausTy) (constO : Option Nat)
    (valueSetO : Option (List (Option (Int × List Nat))))
    (bitRangeO : Option BitRange) (pv : Option ℚ) (piExp : Nat) :
    Except String DecStep :=
  match jausTypeO with
  | none => .error "AttributeError: jausType"
  | some ty =>
    match structUnpack ty (pySlice payload index (index + ty.size)) with
    | .error e => .error e
    | .ok strLength =>
      match constO, propertyName == "MessageID" with
      | some _, true =>
        .ok (dictSet jsonObj propertyName (.str (intToHexAscii strLength)),
          index + ty.size, pv, piExp)
      | _, _ =>
        match valueSetO with
        | some vs =>
          match bitRangeO with
          | some br =>
            -- rewind the offset: the same underlying int is reinterpreted
            .ok (decEnumSet jsonObj propertyName vs
                  (pyShr (bitRangeSum strLength br.bFrom br.bTo) br.bFrom),
              index, pv, piExp)
          | none =>
            .ok (decEnumSet jsonObj propertyName vs strLength,
              index + ty.size, pv, piExp)
        | none =>
          .ok (dictSet jsonObj propertyName
                (.str (pySlice payload (index + ty.size) (index + ty.size + strLength))),
            index + ty.size + strLength, pv, piExp)

/-- One decoded property (the body of the `for propertyName` loop of
`_getProperties`). -/
def decProp (recDec : Fields → List Nat → Int → Schema → Except String (Fields × Int))
    (jsonObj : Fields) (payload : List Nat) (index : Int)
    (propertyName : String) (property : Schema) (pv : Option ℚ) (piExp : Nat) :
    Except String DecStep :=
  match property with
  | .obj _ _ bf2 =>
    -- lines 318-357; nested `fieldFormat` payloads are outside the model.
    -- `hasattr(jsonObj, propertyName)` on a dict is always False, so a fresh
    -- empty dict is always inserted and then filled by the recursion.
    match recDec [] payload index property with
    | .error e => .error e
    | .ok (childFields, index1) =>
      .ok (dictSet jsonObj propertyName (.obj childFields),
        (match bf2 with
         | some bfTy => index1 + bfTy.size
         | none => index1), pv, piExp)
  | .num jausType scaleRangeO bitRangeO =>
    -- lines 358-382
    match structUnpack jausType (pySlice payload index (index + jausType.size)) with
    | .error e => .error e
    | .ok v0 =>
      match scaleRangeO, bitRangeO with
      | some _, some _ =>
        -- line 365 turns `value` into a Python float (`scaleFactor`/`bias`
        -- are JSON floats), and `value & 1 << bit` at line 371 raises
        .error "TypeError: unsupported operand type for &: float and int"
      | none, some br =>
        .ok (dictSet jsonObj propertyName
              (.num (pyShr (bitRangeSum v0 br.bFrom br.bTo) br.bFrom)),
          index, pv, piExp)   -- no offset advance, no presence update
      | srO, none =>
        match
          (match srO with
           | some sr => (v0 : ℚ) * sr.scaleFactor + sr.bias
           | none => (v0 : ℚ)) with
        | value =>
          if propertyName = "presenceVector" then
            .ok (dictSet jsonObj propertyName (.num value),
              index + jausType.size, some value, 0)
          else
            .ok (dictSet jsonObj propertyName (.num value),
              index + jausType.size, pv, piExp)
  | .str jausTypeO constO valueSetO bitRangeO minLO maxLO =>
    -- lines 383-416: fixed-length strings first
    match minLO, maxLO with
    | some mn, some mx =>
      if mn = mx then
        .ok (dictSet jsonObj propertyName
              (.str (rstripNul (pySlice payload index (index + mx)))),
          index + mx, pv, piExp)
      else
        decStrTail jsonObj payload index propertyName jausTypeO constO valueSetO
          bitRangeO pv piExp
    | _, _ =>
      decStrTail jsonObj payload index propertyName jausTypeO constO valueSetO
        bitRangeO pv piExp
  | .arr jausTypeO isVariantO anyOf minItO maxItO =>
    -- lines 417-444
    match jausTypeO with
    | some ty =>
      match structUnpack ty (pySlice payload index (index + ty.size)) with
      | .error e => .error e
      | .ok arrLength =>
        if isVariantO = some true then
          -- variant: recurse into the SAME dict with the selected alternative
          match pyListGet anyOf arrLength with
          | none => .error "IndexError: anyOf"
          | some sel =>
            match recDec jsonObj payload (index + ty.size) sel with
            | .error e => .error e
            | .ok (jsonObj1, index1) => .ok (jsonObj1, index1, pv, piExp)
        else
          match decItemsGo recDec payload arrLength.toNat (index + ty.size) anyOf with
          | .error e => .error e
          | .ok (items, index1) =>
            .ok (dictSet jsonObj propertyName (.arr items), index1, pv, piExp)
    | none =>
      match minItO, maxItO with
      | some m, some mmax =>
        if m = mmax then
          match decItemsGo recDec payload mmax index anyOf with
          | .error e => .error e
          | .ok (items, index1) =>
            .ok (dictSet jsonObj propertyName (.arr items), index1, pv, piExp)
        else .ok (jsonObj, index, pv, piExp)   -- no branch taken: skipped
      | _, _ => .error "AttributeError: minItems/maxItems"

/-- The property loop of `_getProperties`. -/
def decPropsGo
    (recDec : Fields → List Nat → Int → Schema → Except String (Fields × Int))
    (payload : List Nat) (required : Option (List String)) :
    Fields → Int → List (String × Schema) → Option ℚ → Nat →
      Except String (Fields × Int)
  | jsonObj, index, [], _, _ => .ok (jsonObj, index)
  | jsonObj, index, (n, p) :: rest, pv, piExp =>
    match pvGate pv piExp required n with
    | .error e => .error e
    | .ok (true, piExp1) => decPropsGo recDec payload required jsonObj index rest pv piExp1
    | .ok (false, piExp1) =>
      match decProp recDec jsonObj payload index n p pv piExp1 with
      | .error e => .error e
      | .ok (jsonObj1, index1, pv1, piExp2) =>
        decPropsGo recDec payload required jsonObj1 index1 rest pv1 piExp2

/-- `MessageSerializer._getProperties`: walk `schema.properties` from
`payloadIndex`, returning the filled dict and the final offset. -/
def getProperties : Nat → Fields → List Nat → Int → Schema → Except String (Fields × Int)
  | 0, _, _, _, _ => .error "RecursionError: maximum recursion depth exceeded"
  | fuel + 1, jsonObj, payload, index, schema =>
    match schema with
    | .obj required props _ =>
      decPropsGo (fun a b c d => getProperties fuel a b c d) payload required
        jsonObj index props none 0
    | _ => .error "AttributeError: schema has no properties"

/-! ## Addresses, endpoints and messages -/

/-- Modelled from the spec: `jaus_address.py` is not under src/.  §3/§4.2 —
a JAUS address is three unsigned bytes `(subsystem, node, component)`. -/
structure JausAddress where
  subsystem : Nat
  node : Nat
  component : Nat
deriving DecidableEq, BEq, Repr

/-- Split a character list on `'.'`. -/
def splitOnDot : List Char → List (List Char)
  | [] => [[]]
  | c :: rest =>
    if c = '.' then [] :: splitOnDot rest
    else
      match splitOnDot rest with
      | acc :: accs => (c :: acc) :: accs
      | [] => [[c]]

/-- Decimal value of a nonempty digit string (`int(part)`); `none` models
`ValueError`. -/
def decDigits? (cs : List Char) : Option Nat :=
  match cs with
  | [] => none
  | _ =>
    cs.foldl
      (fun acc c =>
        match acc with
        | none => none
        | some n =>
          if '0' ≤ c ∧ c ≤ '9' then some (n * 10 + (c.toNat - 48)) else none)
      (some 0)

/-- Modelled from the spec: §4.2 — `parse(s)` splits on `.`, expects exactly
three decimal components each in `[0, 255]`, fails with `MalformedAddress`
otherwise. -/
def JausAddress.from_string (s : String) : Except String JausAddress :=
  match (splitOnDot s.data).mapM decDigits? with
  | some [a, b, c] =>
    if a ≤ 255 ∧ b ≤ 255 ∧ c ≤ 255 then .ok ⟨a, b, c⟩
    else .error "MalformedAddress"
  | _ => .error "MalformedAddress"

/-- Modelled from the spec: §4.2 — dot-separated decimal string form. -/
def JausAddress.jaus_id (a : JausAddress) : String :=
  toString a.subsystem ++ "." ++ toString a.node ++ "." ++ toString a.component

/-- Modelled from the spec: §3 — the zero address is the connection-management
sentinel (`msg.dst_id.zero` in `_loop_recv`). -/
def JausAddress.zero (a : JausAddress) : Bool :=
  a.subsystem = 0 && a.node = 0 && a.component = 0

/-- Modelled from the spec: `address_book.py` is not under src/.
`AddressBook.Endpoint` kinds used by the transport. -/
inductive EndpointKind where
  | udp
  | udpLocal
deriving DecidableEq, BEq, Repr

/-- Modelled from the spec: §3 — an endpoint record `(kind, host, port)`. -/
structure Endpoint where
  eType : EndpointKind
  address : String
  port : Nat
deriving DecidableEq, BEq, Repr

/-- Modelled from the spec: `message.py` is not under src/.  §3 — header
fields and the append-only payload of a `Message`.  Only the fields the
modelled code touches are included. -/
structure Message where
  version : Nat := 2
  cmd_code : Nat := 0
  msg_id : Nat := 0
  src_id : JausAddress := ⟨0, 0, 0⟩
  dst_id : JausAddress := ⟨0, 0, 0⟩
  seqnr : Nat := 0
  payload : List Nat := []
  tinfo_src : Option Endpoint := none
  tinfo_dst : Option Endpoint := none
deriving DecidableEq, BEq, Repr

/-- Modelled from the spec: §3/§4.6 — the wire-format version tag for
AS-5669 framing used by the handshake messages. -/
def Message.AS5669 : Nat := 1

/-- Modelled from the spec: §3 — nonzero distinct command codes of the
CONNECT / ACCEPT / CANCEL handshake (numeric values are not in src/). -/
def Message.CODE_CONNECT : Nat := 1

/-- Modelled from the spec: §3 — see `Message.CODE_CONNECT`. -/
def Message.CODE_ACCEPT : Nat := 2

/-- Modelled from the spec: §3 — see `Message.CODE_CONNECT`. -/
def Message.CODE_CANCEL : Nat := 3

/-! ## `MessageSerializer.pack` / `unpack` -/

/-- One schema file as loaded into `JSON_SCHEMES`: its `title` and its
object-level schema tree. -/
structure RegSchema where
  title : String
  schema : Schema

/-- The `JSON_SCHEMES` registry: message id (lowercase hex, 4 chars) to the
list of schemas sharing that id, in load order. -/
abbrev Registry := List (String × List RegSchema)

/-- The JSON object received on the WebSocket, parsed with
`object_hook=SimpleNamespace` (`messageName` is optional; accessing it when
absent raises `AttributeError`). -/
structure PackInput where
  messageId : String
  messageName : Option String
  jausIdSrc : String
  jausIdDst : String
  data : JValue

/-- The single-schema body of `pack` (lines 74-77 and 81-84): assign
`src_id`, then `dst_id`, then run the encode walk appending to the payload.
Failures return `False` with whatever mutations already happened. -/
def packOne (fuel : Nat) (entry : RegSchema) (jsonObj : PackInput)
    (message : Message) : Bool × Message :=
  match JausAddress.from_string jsonObj.jausIdSrc with
  | .error _ => (false, message)
  | .ok src =>
    match JausAddress.from_string jsonObj.jausIdDst with
    | .error _ => (false, { message with src_id := src })
    | .ok dst =>
      match addProperties fuel jsonObj.data entry.schema with
      | (bytes, .ok _) =>
        (true, { message with
                  src_id := src
                  dst_id := dst
                  payload := message.payload ++ bytes })
      | (bytes, .error _) =>
        (false, { message with
                  src_id := src
                  dst_id := dst
                  payload := message.payload ++ bytes })

/-- The multi-schema loop of `pack` (lines 79-84): first schema whose
`title` equals `messageName` is used; a missing `messageName` raises at the
first comparison (caught, `False`); no match falls through to `False`. -/
def packMulti (fuel : Nat) (schemas : List RegSchema) (jsonObj : PackInput)
    (message : Message) : Bool × Message :=
  match schemas with
  | [] => (false, message)
  | s :: rest =>
    match jsonObj.messageName with
    | none => (false, message)
    | some mName =>
      if s.title = mName then packOne fuel s jsonObj message
      else packMulti fuel rest jsonObj message

/-- `MessageSerializer.pack` (message_serializer.py:62-88).  The bare
`except:` converts every internal exception into a `False` result; the
`Message` keeps any partial mutations. -/
def pack (fuel : Nat) (reg : Registry) (jsonObj : PackInput)
    (message : Message) : Bool × Message :=
  match reg.lookup jsonObj.messageId with
  | none => (false, message)   -- KeyError on JSON_SCHEMES[...]
  | some schemas =>
    match schemas with
    | [single] => packOne fuel single jsonObj message
    | _ => packMulti fuel schemas jsonObj message

/-- Result dict of `unpack` (lines 100-123). -/
structure UnpackResult where
  messageId : String
  jausIdDst : String
  jausIdSrc : String
  data : Option Fields

/-- The schema loop of `unpack` (lines 112-120): EVERY schema is tried in
list order with no break; each successful parse overwrites `result["data"]`,
so the last success wins; failures keep the previous value. -/
def unpackTrySchemas (fuel : Nat) (payload : List Nat) :
    List RegSchema → Option Fields → Option Fields
  | [], acc => acc
  | s :: rest, acc =>
    match getProperties fuel [] payload 0 s.schema with
    | .ok (fields, _) => unpackTrySchemas fuel payload rest (some fields)
    | .error _ => unpackTrySchemas fuel payload rest acc

/-- `MessageSerializer.unpack` (message_serializer.py:90-123). -/
def unpack (fuel : Nat) (reg : Registry) (message : Message) : UnpackResult :=
  if message.msg_id ≠ 0 then
    match reg.lookup (zfill4 (natToHexString message.msg_id)) with
    | none =>
      { messageId := zfill4 (natToHexString message.msg_id),
        jausIdDst := message.dst_id.jaus_id,
        jausIdSrc := message.src_id.jaus_id, data := none }
    | some schemas =>
      { messageId := zfill4 (natToHexString message.msg_id),
        jausIdDst := message.dst_id.jaus_id,
        jausIdSrc := message.src_id.jaus_id,
        data := unpackTrySchemas fuel message.payload schemas none }
  else
    { messageId := zfill4 (natToHexString message.msg_id),
      jausIdDst := message.dst_id.jaus_id,
      jausIdSrc := message.src_id.jaus_id, data := none }

/-! ## UDP transport — `UDPucSocket` (transport/udp_uc.py) -/

/-- Receive-loop state of one socket relevant to connection handling. -/
structure RecvState where
  nmConnected : Bool
  addressBook : List JausAddress
  senderEndpoints : List ((String × Nat) × Endpoint)
  locals : List String

/-- Handling of one parsed message in `_loop_recv` (lines 222-263):
connection management for a zero destination or nonzero command code,
endpoint classification otherwise.  Returns the updated state and the
message as it is afterwards passed on. -/
def handleRecvMsg (st : RecvState) (address : String × Nat) (msg : Message) :
    RecvState × Message :=
  if msg.dst_id.zero || msg.cmd_code > 0 then
    (if msg.cmd_code = Message.CODE_ACCEPT then { st with nmConnected := true }
     else if msg.cmd_code = Message.CODE_CANCEL then
       -- Modelled from the spec: §4.6 — `AddressBook.remove` (address_book.py
       -- is not under src/) removes the originating source from the book.
       { st with
          nmConnected := false
          addressBook := st.addressBook.filter (fun a => ¬(a = msg.src_id)) }
     else st, msg)
  else
    match st.senderEndpoints.lookup address with
    | some ep => (st, { msg with tinfo_src := some ep })
    | none =>
      match (⟨(if st.locals.contains address.1 then .udpLocal else .udp),
              address.1, address.2⟩ : Endpoint) with
      | endpoint =>
        ({ st with senderEndpoints := st.senderEndpoints ++ [(address, endpoint)] },
          { msg with tinfo_src := some endpoint })

/-- The `for msg in msgs` loop of `_loop_recv`: note that
`self._router.route_udp_msg(msg)` (line 266) runs for EVERY parsed message,
including connection-management ones.  The second component collects the
messages dispatched to the router, in order. -/
def processParsedMsgs (st : RecvState) (address : String × Nat) :
    List Message → RecvState × List Message
  | [] => (st, [])
  | m :: rest =>
    match handleRecvMsg st address m with
    | (st1, m1) =>
      match processParsedMsgs st1 address rest with
      | (st2, dispatched) => (st2, m1 :: dispatched)

/-- Send-loop state: the per-socket `_seqNr` counter (initialised to 0 in
`__init__`, line 53) and the datagram messages passed to `_sendto`. -/
structure SendState where
  seqNr : Nat
  sent : List Message

/-- One iteration of `_loop_send` (lines 160-183): resolve the destination
(falling back to `default_dst`), and only when one exists assign `seqnr`
from the counter, bump the counter and send. -/
def loopSendStep (default_dst : Option (String × Nat)) (st : SendState)
    (msg : Message) : SendState :=
  match
    (match msg.tinfo_dst, default_dst with
     | none, some (h, p) => some (⟨.udp, h, p⟩ : Endpoint)
     | d, _ => d) with
  | none => st
  | some _ =>
    { seqNr := st.seqNr + 1, sent := st.sent ++ [{ msg with seqnr := st.seqNr }] }

/-- The send loop draining a queue of messages in order. -/
def loopSend (default_dst : Option (String × Nat)) (msgs : List Message) : SendState :=
  msgs.foldl (loopSendStep default_dst) ⟨0, []⟩

/-- `UDPucSocket.connectJausAddress` (lines 120-129): the synthetic CONNECT
message enqueued for a new JAUS source address. -/
def connectMsg (hostname : String) (port : Nat) (a : JausAddress) : Message :=
  { version := Message.AS5669, cmd_code := Message.CODE_CONNECT, src_id := a,
    tinfo_src := some ⟨.udp, hostname, port⟩ }

/-- `UDPucSocket.disconnectJausAddress` (lines 131-139). -/
def cancelMsg (hostname : String) (port : Nat) (a : JausAddress) : Message :=
  { version := Message.AS5669, cmd_code := Message.CODE_CANCEL, src_id := a,
    tinfo_src := some ⟨.udp, hostname, port⟩ }

/-! ## WebSocket handler — `WsClientHandler` (server.py:41-90)

`jausAddresses = []` (server.py line 47) is a CLASS attribute of
`WsClientHandler`, mutated in place by `self.jausAddresses.append(...)` and
`self.jausAddresses.clear()`: there is ONE list shared by every connected
client, not a per-instance set.  The model therefore keeps a single shared
list.  `clients` and the WebSocket broadcast are not needed by the claims
and are omitted. -/

structure WsState where
  jausAddresses : List JausAddress
  udpQueue : List Message

/-- Modelled from the spec: `Message(msg.messageId)` — the `Message`
constructor (message.py is not under src/) stores the 16-bit message id; the
hex string is taken as already parsed (the id is unused by `pack` itself). -/
def initMessage (msgId : Nat) : Message := { msg_id := msgId }

/-- `WsClientHandler.handle` (server.py:49-68): parse the frame, on a new
`jausIdSrc` append it to the (shared) `jausAddresses` list and enqueue a
CONNECT; then `pack` and enqueue the IOP message if packing succeeded.  Any
exception is swallowed. -/
def wsHandle (fuel : Nat) (reg : Registry) (hostname : String) (port : Nat)
    (msgId : Nat) (st : WsState) (frame : PackInput) : WsState :=
  match JausAddress.from_string frame.jausIdSrc with
  | .error _ => st
  | .ok jAddr =>
    match
      (if st.jausAddresses.contains jAddr then st
       else { st with
              jausAddresses := st.jausAddresses ++ [jAddr]
              udpQueue := st.udpQueue ++ [connectMsg hostname port jAddr] }) with
    | st1 =>
      match pack fuel reg frame (initMessage msgId) with
      | (true, iopMsg) =>
        { st1 with udpQueue := st1.udpQueue ++
          [{ iopMsg with tinfo_src := some ⟨.udp, hostname, port⟩ }] }
      | (false, _) => st1

/-- `WsClientHandler.handle_close` (server.py:82-90): a CANCEL is enqueued
for EVERY address in the shared `jausAddresses` list — regardless of which
client contributed it — and the shared list is cleared. -/
def wsHandleClose (hostname : String) (port : Nat) (st : WsState) : WsState :=
  { jausAddresses := [],
    udpQueue := st.udpQueue ++ st.jausAddresses.map (cancelMsg hostname port) }

/-! ## Concrete fixtures used by the claim theorems -/

/-- ASCII bytes of a literal string value. -/
def asciiOf (s : String) : List Nat := s.data.map Char.toNat

/-- `Except.isOk` as a plain function. -/
def exceptIsOk {ε α : Type} : Except ε α → Bool
  | .ok _ => true
  | .error _ => false

/-- A one-byte-number schema titled `A` (property `a`). -/
def schemaTitleA : RegSchema := ⟨"A", .obj (some []) [("a", .num .ubyte none none)] none⟩

/-- A one-byte-number schema titled `B` (property `b`). -/
def schemaTitleB : RegSchema := ⟨"B", .obj (some []) [("b", .num .ubyte none none)] none⟩

/-- A registry in which id `0001` carries two schemas. -/
def regTwoSchemas : Registry := [("0001", [schemaTitleA, schemaTitleB])]

/-- A received message with id 1 and a single payload byte. -/
def msgId1 : Message := { msg_id := 1, payload := [7] }

/-- Modelled from the spec: the `ReportIdentification` schema file (id
`4b00`) is not under src/; §8 seed scenarios and `test_pack.py` fix its
shape: a `HeaderRec` with the `MessageID` constant and a
`ReportIdentificationRec` with two value sets and a required variable-length
`Identification` string. -/
def schemaReportIdentification : RegSchema :=
  ⟨"ReportIdentification",
    .obj (some ["HeaderRec", "ReportIdentificationRec"])
      [("HeaderRec", .obj (some ["MessageID"])
          [("MessageID", .str (some .ushortInteger) (some 0x4b00) none none none none)] none),
       ("ReportIdentificationRec", .obj (some ["QueryType", "Type", "Identification"])
          [("QueryType", .str (some .ubyte) none
              (some [some (2, asciiOf "System Identification")]) none none none),
           ("Type", .str (some .ushortInteger) none
              (some [some (10001, asciiOf "VEHICLE")]) none none none),
           ("Identification", .str (some .ubyte) none none none (some 1) (some 255))] none)]
      none⟩

/-- Registry holding only the `ReportIdentification` schema. -/
def reg4b00 : Registry := [("4b00", [schemaReportIdentification])]

/-- The `invalid_data_missing_field` input of `test_pack.py`:
`Identification` is intentionally missing. -/
def invalidDataMissingField : PackInput :=
  { messageId := "4b00"
    messageName := some "ReportIdentification"
    jausIdSrc := "127.100.1"
    jausIdDst := "127.255.255"
    data := .obj [("HeaderRec", .obj [("MessageID", .str (asciiOf "4b00"))]),
      ("ReportIdentificationRec", .obj
        [("QueryType", .str (asciiOf "System Identification")),
         ("Type", .str (asciiOf "VEHICLE"))])] }

/-- The message `pack` produces for `invalidDataMissingField`: addresses
assigned and a payload ending in the `0xff` length prefix of the missing
`Identification` string — and a `True` result. -/
def packedMissingField : Message :=
  { msg_id := 0x4b00
    src_id := ⟨127, 100, 1⟩
    dst_id := ⟨127, 255, 255⟩
    payload := [0, 75, 2, 17, 39, 255] }

/-- Registry for the C10 fixtures: two required unsigned bytes. -/
def regTwoBytes : Registry :=
  [("0002", [⟨"T", .obj (some ["a", "b"])
    [("a", .num .ubyte none none), ("b", .num .ubyte none none)] none⟩])]

/-- An input whose second property overflows `unsigned byte`. -/
def inputBadData : PackInput :=
  { messageId := "0002"
    messageName := none
    jausIdSrc := "127.100.1"
    jausIdDst := "127.255.255"
    data := .obj [("a", .num 5), ("b", .num 300)] }

/-- An input with an id absent from the registry. -/
def inputUnknownId : PackInput :=
  { messageId := "9999"
    messageName := none
    jausIdSrc := "127.100.1"
    jausIdDst := "127.255.255"
    data := .obj [] }

/-- An input whose source address does not parse. -/
def inputBadAddr : PackInput :=
  { messageId := "0002"
    messageName := none
    jausIdSrc := "not-an-address"
    jausIdDst := "127.255.255"
    data := .obj [("a", .num 5), ("b", .num 6)] }

/-- The partially mutated message left behind by `pack` on `inputBadData`:
addresses assigned and the first property's byte already appended. -/
def partialMutatedMsg : Message :=
  { msg_id := 2
    src_id := ⟨127, 100, 1⟩
    dst_id := ⟨127, 255, 255⟩
    payload := [5] }

/-- WebSocket frame from JAUS source `1.1.1` (unregistered message id, so
`pack` fails and only the address tracking acts). -/
def frameSrcA : PackInput :=
  { messageId := "ffff"
    messageName := none
    jausIdSrc := "1.1.1"
    jausIdDst := "2.2.2"
    data := .obj [] }

/-- WebSocket frame from JAUS source `2.2.2`. -/
def frameSrcB : PackInput :=
  { messageId := "ffff"
    messageName := none
    jausIdSrc := "2.2.2"
    jausIdDst := "2.2.2"
    data := .obj [] }

/-- A parsed datagram message with `cmd_code = CODE_ACCEPT`. -/
def msgAccept : Message := { cmd_code := Message.CODE_ACCEPT }

/-- The C1/C4 variable-length-string schema: a variable string (`minLength 0`,
`maxLength 5`, `unsigned byte` prefix) followed by a required unsigned byte. -/
def schemaVarStr : Schema :=
  .obj (some ["s", "n"])
    [("s", .str (some .ubyte) none none none (some 0) (some 5)),
     ("n", .num .ubyte none none)] none

/-- A value conforming to `schemaVarStr`: the two-byte string `"ab"` and the
number 7. -/
def valueVarStr : JValue := .obj [("s", .str [97, 98]), ("n", .num 7)]

/-! ## Claim theorems -/

/-- C2: the spec and the repository's own tests (`test_pack.py`) demand that
encoding an out-of-range integer saturates to the range endpoint
(`_safe_pack("unsigned byte", 300) = 0xff`, `_safe_pack("byte", -200) =
0x80`).  The code has no `_safe_pack` at all and `_addProperties` calls
`struct.pack` directly, which raises `struct.error` for out-of-range values;
the byte is never emitted and `pack` reports failure.  This theorem
evaluates the code at the failing inputs: encoding 300 as `unsigned byte`
and −200 as `byte` raises instead of emitting `0xff` / `0x80`. -/
theorem C2_no_saturation_struct_error :
    addProperties 2 (.obj [("a", .num 300)])
      (.obj (some ["a"]) [("a", .num .ubyte none none)] none)
      = ([], .error "struct.error: argument out of range") ∧
    addProperties 2 (.obj [("a", .num (-200))])
      (.obj (some ["a"]) [("a", .num .byte none none)] none)
      = ([], .error "struct.error: argument out of range") ∧
    structPack .ubyte 300 = .error "struct.error: argument out of range" ∧
    structPack .byte (-200) = .error "struct.error: argument out of range" :=
  ⟨rfl, rfl, rfl, rfl⟩

/-- C3 counterexample: with two schemas registered under id `0001`, both of
which parse the one-byte payload `[7]` successfully, `unpack` does NOT keep
the first schema's result: its loop has no `break`, so the data of the LAST
successful schema (`{"b": 7}`) overwrites the first one's (`{"a": 7}`). -/
theorem C3_counterexample :
    (unpack 2 regTwoSchemas msgId1).data = some [("b", JValue.num 7)] ∧
    some [("b", JValue.num 7)] ≠ some [("a", JValue.num 7)] :=
  ⟨rfl, by simp⟩

/-- The decode attempt of one candidate schema, as an `Option`. -/
def tryDecode (fuel : Nat) (payload : List Nat) (s : RegSchema) : Option Fields :=
  match getProperties fuel [] payload 0 s.schema with
  | .ok (f, _) => some f
  | .error _ => none

theorem unpackTrySchemas_last (fuel : Nat) (payload : List Nat)
    (schemas : List RegSchema) (acc : Option Fields) :
    unpackTrySchemas fuel payload schemas acc
      = ((schemas.filterMap (tryDecode fuel payload)).getLast?).elim acc some := by
  induction schemas generalizing acc with
  | nil => simp [unpackTrySchemas]
  | cons s rest ih =>
    unfold unpackTrySchemas
    cases hgp : getProperties fuel [] payload 0 s.schema with
    | ok fi =>
      obtain ⟨f, i⟩ := fi
      have hg : tryDecode fuel payload s = some f := by simp [tryDecode, hgp]
      simp only []
      rw [ih (some f), List.filterMap_cons, hg]
      cases hrest : (rest.filterMap (tryDecode fuel payload)) with
      | nil => simp
      | cons x xs =>
        obtain ⟨y, hy⟩ : ∃ y, (x :: xs).getLast? = some y := by
          have := List.getLast?_isSome (l := x :: xs)
          simp only [ne_eq, List.cons_ne_nil, not_false_iff, iff_true] at this
          exact Option.isSome_iff_exists.mp this
        simp [List.getLast?_cons_cons, hy]
    | error e =>
      have hg : tryDecode fuel payload s = none := by simp [tryDecode, hgp]
      simp only []
      rw [ih acc, List.filterMap_cons, hg]

/-- C3 (amended): when more than one schema is registered under a message
id, `unpack` tries EVERY candidate schema in registry list order and the
decoded `data` in the result is the one produced by the LAST schema that
parses without raising (each success overwrites the previous `data`); if
none succeeds, `data` is absent. -/
theorem C3_last_schema_wins (fuel : Nat) (reg : Registry) (msg : Message)
    (schemas : List RegSchema) (h1 : msg.msg_id ≠ 0)
    (h2 : reg.lookup (zfill4 (natToHexString msg.msg_id)) = some schemas) :
    (unpack fuel reg msg).data
      = ((schemas.filterMap (tryDecode fuel msg.payload)).getLast?).elim none some := by
  unfold unpack
  rw [if_pos h1, h2]
  exact unpackTrySchemas_last fuel msg.payload schemas none

/-- C3 witness: the amended theorem applied to the two-schema fixture. -/
theorem C3_last_schema_wins_witness :
    (unpack 2 regTwoSchemas msgId1).data
      = ((([schemaTitleA, schemaTitleB]).filterMap (tryDecode 2 [7])).getLast?).elim
          none some :=
  C3_last_schema_wins 2 regTwoSchemas msgId1 [schemaTitleA, schemaTitleB]
    (by decide) rfl

/-- C4 counterexample: encoding the two-byte string `"ab"` against a
variable string property of `maxLength` 5 emits the prefix byte 5 and then
raises `struct.error` — the claimed "bytes of the actual string truncated to
maxLength" are never appended, because `valueStr` is a Python 3 `str` and
the `'s'` format of `struct.pack` requires `bytes`
(message_serializer.py:270). -/
theorem C4_counterexample :
    encProp (fun _ _ => ([], .ok 0)) (.obj [("s", .str [97, 98])]) (some []) []
      "s" (.str (some .ubyte) none none none (some 0) (some 5)) 0
      = ([5], .error "struct.error: argument for s must be a bytes object") ∧
    (([5], .error "struct.error: argument for s must be a bytes object")
        : List Nat × Except String Int)
      ≠ ([5, 97, 98], .ok 0) :=
  ⟨rfl, by simp⟩

/-- C4 (amended): for every variable-length string property
(`minLength ≠ maxLength`), the encoder first appends a length prefix of the
property's `jausType` width carrying the schema's `maxLength` (NOT the
actual string length); then, because the JSON value is a Python 3 `str` and
`struct.pack`'s `'s'` format requires `bytes`, the string pack at
message_serializer.py:270 raises `struct.error` for every non-empty string,
so no string bytes follow the prefix (an empty string skips the pack and
leaves just the prefix). -/
theorem C4_prefix_then_struct_error
    (recEnc : JValue → Schema → List Nat × Except String Int)
    (jsonObj : JValue) (required : Option (List String))
    (allProps : List (String × Schema)) (propertyName : String)
    (jt : JausTy) (mn mx : Nat) (s : List Nat) (bf : Int) (pfx : List Nat)
    (hmn : mn ≠ mx)
    (hval : getattrJ jsonObj propertyName = some (.str s))
    (hpfx : structPack jt (mx : Int) = .ok pfx) :
    encProp recEnc jsonObj required allProps propertyName
      (.str (some jt) none none none (some mn) (some mx)) bf
      = (pfx,
         if min s.length mx > 0 then
           .error "struct.error: argument for s must be a bytes object"
         else .ok bf) := by
  simp only [encProp, hval, hpfx, if_neg hmn, structPackS]
  by_cases h : min s.length mx > 0 <;> simp [h]

/-- C4 witness: the amended theorem at the two-byte string `"ab"` with
`maxLength` 5 — the prefix byte 5 is emitted, then the pack raises. -/
theorem C4_prefix_then_struct_error_witness :
    encProp (fun _ _ => ([], .ok 0)) (.obj [("t", .str [97, 98])]) (some []) []
      "t" (.str (some .ubyte) none none none (some 0) (some 5)) 0
      = ([5],
         if min ([97, 98] : List Nat).length 5 > 0 then
           .error "struct.error: argument for s must be a bytes object"
         else .ok 0) :=
  C4_prefix_then_struct_error (fun _ _ => ([], .ok 0))
    (.obj [("t", .str [97, 98])]) (some []) [] "t" .ubyte 0 5 [97, 98] 0 [5]
    (by decide) rfl rfl

/-- C5: the spec claims a missing required property raises
`MissingRequiredField` and `pack` returns `False`, and
`test_pack.py::test_pack_missing_required` asserts exactly that for
`ReportIdentification` without `Identification`.  The code has no required-
property check for strings at all: it encodes the absent string as the
`maxLength` length prefix with zero string bytes and `pack` returns `True`
with a fully populated message — contradicting the repository's own test. -/
theorem C5_missing_required_pack_true :
    pack 4 reg4b00 invalidDataMissingField (initMessage 0x4b00)
      = (true, packedMissingField) ∧ true ≠ false :=
  ⟨rfl, by simp⟩

/-- C6 counterexample: a number property with `bitRange {from := 0, to := 3}`
and input value 5 DOES emit its standalone byte `0x05` into the payload
(message_serializer.py:205-213 runs before the `bitRange` branch), while
also folding `5 >> 0` into the accumulator — the claim says no standalone
bytes are emitted. -/
theorem C6_counterexample :
    addProperties 2 (.obj [("x", .num 5)])
      (.obj (some ["x"]) [("x", .num .ubyte none (some ⟨0, 3⟩))] none)
      = ([5], .ok 5) ∧ ([5] : List Nat) ≠ [] :=
  ⟨rfl, by simp⟩

/-- C6 (amended): for every number property with `bitRange` set and no
`scaleRange`, the encoder shifts the input value right by `bitRange.from`
and folds it into the bit-field accumulator — but it ALSO emits the packed
standalone bytes of the value into the payload first (the enclosing
bit-field object additionally emits the accumulated integer at the end). -/
theorem C6_bitrange_amended
    (recEnc : JValue → Schema → List Nat × Except String Int)
    (jsonObj : JValue) (required : Option (List String))
    (allProps : List (String × Schema)) (propertyName : String)
    (jt : JausTy) (br : BitRange) (q : ℚ) (bs : List Nat) (bf : Int)
    (hname : propertyName ≠ "presenceVector")
    (hval : getattrJ jsonObj propertyName = some (.num q))
    (hden : q.den = 1)
    (hbs : structPack jt q.num = .ok bs) :
    encProp recEnc jsonObj required allProps propertyName
      (.num jt none (some br)) bf
      = (bs, .ok (bf + pyShr q.num br.bFrom)) := by
  simp only [encProp, if_neg hname, hval, hden, hbs]
  simp

/-- C6 witness: the amended theorem at value 3, `bitRange.from = 1`:
the byte 3 is emitted and `3 >> 1 = 1` is accumulated. -/
theorem C6_bitrange_amended_witness :
    encProp (fun _ _ => ([], .ok 0)) (.obj [("x", .num 3)]) (some []) []
      "x" (.num .ubyte none (some ⟨1, 3⟩)) 0
      = ([3], .ok (0 + pyShr 3 1)) :=
  C6_bitrange_amended (fun _ _ => ([], .ok 0)) (.obj [("x", .num 3)]) (some [])
    [] "x" .ubyte ⟨1, 3⟩ 3 [3] 0 (by decide) rfl rfl rfl

/-- C7 counterexample: a parsed message with `cmd_code = CODE_ACCEPT` flips
`nmConnected` to true AND is still dispatched to `route_udp_msg` — the call
at udp_uc.py:266 is inside the `for msg` loop, not inside the `else` branch,
so the dispatched list is `[msg]`, not `[]` as the claim requires. -/
theorem C7_counterexample :
    processParsedMsgs ⟨false, [], [], []⟩ ("10.0.0.1", 3794) [msgAccept]
      = (⟨true, [], [], []⟩, [msgAccept]) ∧
    ([msgAccept] : List Message) ≠ [] :=
  ⟨rfl, by simp⟩

/-- C7 (amended): whenever the UDP receive loop gets a parsed message with
`cmd_code = CODE_ACCEPT`, it sets `nmConnected` to true — and the message IS
additionally dispatched to the router callback `route_udp_msg`, like every
other parsed message. -/
theorem C7_accept_amended (st : RecvState) (address : String × Nat)
    (msg : Message) (h : msg.cmd_code = Message.CODE_ACCEPT) :
    processParsedMsgs st address [msg] = ({ st with nmConnected := true }, [msg]) := by
  simp [processParsedMsgs, handleRecvMsg, h, Message.CODE_ACCEPT, Message.CODE_CANCEL]

/-- C7 witness: the amended theorem at the concrete ACCEPT message. -/
theorem C7_accept_amended_witness :
    processParsedMsgs ⟨true, [⟨1, 1, 1⟩], [], []⟩ ("10.0.0.1", 3794) [msgAccept]
      = ({ nmConnected := true, addressBook := [⟨1, 1, 1⟩], senderEndpoints := [],
            locals := [] }, [msgAccept]) :=
  C7_accept_amended ⟨true, [⟨1, 1, 1⟩], [], []⟩ ("10.0.0.1", 3794) msgAccept rfl

theorem loopSendStep_inv (dd : Option (String × Nat)) (st : SendState) (m : Message)
    (h1 : st.sent.map Message.seqnr = List.range st.sent.length)
    (h2 : st.seqNr = st.sent.length) :
    (loopSendStep dd st m).sent.map Message.seqnr
      = List.range (loopSendStep dd st m).sent.length ∧
    (loopSendStep dd st m).seqNr = (loopSendStep dd st m).sent.length := by
  unfold loopSendStep
  split
  · exact ⟨h1, h2⟩
  · constructor
    · simp only [List.map_append, List.length_append, List.map_cons, List.map_nil,
        List.length_cons, List.length_nil, h1, h2, List.range_succ]
    · simp [h2]

theorem loopSend_inv (dd : Option (String × Nat)) (msgs : List Message) (st : SendState)
    (h1 : st.sent.map Message.seqnr = List.range st.sent.length)
    (h2 : st.seqNr = st.sent.length) :
    (msgs.foldl (loopSendStep dd) st).sent.map Message.seqnr
      = List.range (msgs.foldl (loopSendStep dd) st).sent.length := by
  induction msgs generalizing st with
  | nil => exact h1
  | cons m rest ih =>
    simp only [List.foldl_cons]
    have hstep := loopSendStep_inv dd st m h1 h2
    exact ih (loopSendStep dd st m) hstep.1 hstep.2

/-- C8: for every UDP socket and every queue of messages, the sequence
numbers assigned at send time by `_loop_send` to the datagrams actually sent
form exactly the sequence `0, 1, …, N−1` (`_seqNr` starts at 0 in
`__init__` and is incremented once per sent datagram; messages without a
resolvable destination consume no number). -/
theorem C8_seqnr_monotonic (dd : Option (String × Nat)) (msgs : List Message) :
    (loopSend dd msgs).sent.map Message.seqnr
      = List.range (loopSend dd msgs).sent.length :=
  loopSend_inv dd msgs ⟨0, []⟩ rfl rfl

/-- C9: `jausAddresses` (server.py:47) is a class attribute shared by every
`WsClientHandler` instance.  After client A's frame from `1.1.1` and client
B's frame from `2.2.2`, a single `handle_close` (client B disconnecting)
enqueues a CANCEL for BOTH addresses — including the one only client A ever
sent — and clears the shared list, so client A's recorded addresses are
wiped as well.  This contradicts the claimed per-client behaviour (and the
code's own comment 'store all jaus ids received via this handler'). -/
theorem C9_shared_jausAddresses :
    wsHandleClose "localhost" 3795
      (wsHandle 2 [] "localhost" 3795 65535
        (wsHandle 2 [] "localhost" 3795 65535 ⟨[], []⟩ frameSrcA) frameSrcB)
      = ⟨[], [connectMsg "localhost" 3795 ⟨1, 1, 1⟩,
          connectMsg "localhost" 3795 ⟨2, 2, 2⟩,
          cancelMsg "localhost" 3795 ⟨1, 1, 1⟩,
          cancelMsg "localhost" 3795 ⟨2, 2, 2⟩]⟩ ∧
    (cancelMsg "localhost" 3795 ⟨1, 1, 1⟩).src_id = ⟨1, 1, 1⟩ :=
  ⟨rfl, rfl⟩

/-- C10: `pack` never raises — the registry miss, the malformed source
address and the out-of-range value below all yield a `False` result — but it
is not atomic on error: for `inputBadData` the returned message already has
`src_id`/`dst_id` assigned and the first property's byte appended to the
payload by the partial encode walk. -/
theorem C10_pack_false_partial_mutation :
    pack 3 regTwoBytes inputUnknownId (initMessage 2) = (false, initMessage 2) ∧
    pack 3 regTwoBytes inputBadAddr (initMessage 2) = (false, initMessage 2) ∧
    pack 3 regTwoBytes inputBadData (initMessage 2) = (false, partialMutatedMsg) ∧
    partialMutatedMsg.payload ≠ [] ∧
    partialMutatedMsg.src_id = ⟨127, 100, 1⟩ :=
  ⟨rfl, rfl, rfl, by simp [partialMutatedMsg], rfl⟩

/-- C1 counterexample: for the conforming value `{"s": "ab", "n": 7}` of
`schemaVarStr`, the encode walk appends the variable-string prefix byte 5
(`maxLength`, not the actual length 2) and then raises `struct.error` —
`json.loads` yields a Python 3 `str` and `struct.pack(f'{n}s', ...)`
requires `bytes` (message_serializer.py:270).  Encoding never succeeds, so
decoding the encoding cannot return the value: the round-trip claim fails
for every schema containing a string property with positive length. -/
theorem C1_counterexample :
    addProperties 2 valueVarStr schemaVarStr
      = ([5], .error "struct.error: argument for s must be a bytes object") ∧
    exceptIsOk (addProperties 2 valueVarStr schemaVarStr).2 = false :=
  ⟨rfl, rfl⟩

/-! ## The round-trip fragment (claim C1)

`simpleProp` carves out the schema fragment on which the codec is actually
inverse to itself: objects without `bitField`, integer-typed numbers without
`bitRange` or `scaleRange` (scaled numerics are treated separately), string
enums with injective value sets (they pack as integers) and homogeneous
arrays of objects; property names are distinct and `presenceVector` does not
occur.  Plain strings — fixed or variable length — cannot be in the
fragment: their encode calls `struct.pack(f'{n}s', ...)` on a Python 3 `str`
and raises for every positive length.  `conforms` is the matching
value-conformance check (all properties present, in schema order). -/

/-- The jausTypes whose `JAUS_TYPES` size equals their `struct` width (the
two `long` types disagree — 8 declared vs 4 packed — and cannot round-trip). -/
def smallTy : JausTy → Bool
  | .byte => true
  | .shortInteger => true
  | .integer => true
  | .ubyte => true
  | .ushortInteger => true
  | .uintInteger => true
  | _ => false

theorem smallTy_size_eq (ty : JausTy) (h : smallTy ty = true) :
    ty.size = ty.packWidth := by
  cases ty <;> simp_all [smallTy, JausTy.size, JausTy.packWidth]

/-- Distinct enum constants, distinct enum indexes, all indexes packable. -/
def enumEntriesOk (ty : JausTy) (vs : List (Option (Int × List Nat))) : Bool :=
  decide (((vs.filterMap id).map Prod.fst).Nodup) &&
  decide (((vs.filterMap id).map Prod.snd).Nodup) &&
  (vs.filterMap id).all (fun e => inRange ty e.1)

/-- Whether a schema node is an object. -/
def isObjSchema : Schema → Bool
  | .obj _ _ _ => true
  | _ => false

mutual

/-- Membership in the round-trip fragment. -/
def simpleProp : Schema → Bool
  | .obj _req props bf =>
    bf.isNone && decide ((props.map Prod.fst).Nodup) && simpleProps props
  | .num ty srO brO => srO.isNone && brO.isNone && smallTy ty
  | .str jtO cO vsO brO mnO mxO =>
    cO.isNone &&
    (match vsO with
     | some vs =>
       (match jtO with
        | some ty => smallTy ty && enumEntriesOk ty vs
        | none => false) && brO.isNone && mnO.isNone && mxO.isNone
     | none => false)
  | .arr jtO ivO anyOf _miO _maO =>
    match jtO, ivO, anyOf with
    | some ty, some isv, s0 :: _ =>
      decide (isv = false) && smallTy ty && isObjSchema s0 && simpleProp s0
    | _, _, _ => false

/-- All properties simple, none named `presenceVector`. -/
def simpleProps : List (String × Schema) → Bool
  | [] => true
  | (n, p) :: rest => decide (n ≠ "presenceVector") && simpleProp p && simpleProps rest

end

mutual

/-- Conformance of a value to a simple schema node. -/
def conforms : JValue → Schema → Bool
  | .obj vf, .obj _req props _bf => confFields vf props
  | .num q, .num ty _srO _brO => decide (q.den = 1) && inRange ty q.num
  | .str s, .str _jtO _cO vsO _brO _mnO mxO =>
    (match vsO with
     | some vs => (vs.filterMap id).any (fun e => e.2 == s)
     | none =>
       match mxO with
       | some mx => decide (s.length ≤ mx) && !(s.getLast? == some 0)
       | none => false)
  | .arr elems, .arr jtO _ivO anyOf _miO _maO =>
    (match jtO, anyOf with
     | some ty, s0 :: _ => inRange ty (elems.length : Int) && confItems elems s0
     | _, _ => false)
  | _, _ => false
termination_by v s => (sizeOf s, sizeOf v)

/-- Value fields match the schema properties positionally. -/
def confFields : Fields → List (String × Schema) → Bool
  | [], [] => true
  | (n1, c) :: vrest, (n2, p) :: prest =>
    (n1 == n2) && conforms c p && confFields vrest prest
  | _, _ => false
termination_by vf props => (sizeOf props, sizeOf vf)

/-- Every element conforms to the element schema. -/
def confItems : List JValue → Schema → Bool
  | [], _ => true
  | x :: xs, s0 => conforms x s0 && confItems xs s0
termination_by xs s0 => (sizeOf s0, sizeOf xs)

end

/-! ### Dictionary and lookup helpers -/

theorem lookup_none_of_not_mem {β : Type} (l : List (String × β)) (n : String)
    (h : ¬ n ∈ l.map Prod.fst) : l.lookup n = none := by
  induction l with
  | nil => rfl
  | cons kv rest ih =>
    obtain ⟨k, v⟩ := kv
    simp only [List.map_cons, List.mem_cons] at h
    push_neg at h
    have hk : (n == k) = false := by
      simp only [beq_eq_false_iff_ne, ne_eq]
      exact h.1
    simp [List.lookup, hk, ih h.2]

theorem lookup_append_cons {β : Type} (pre : List (String × β)) (n : String) (c : β)
    (post : List (String × β)) (h : ¬ n ∈ pre.map Prod.fst) :
    (pre ++ (n, c) :: post).lookup n = some c := by
  induction pre with
  | nil => simp [List.lookup]
  | cons kv rest ih =>
    obtain ⟨k, v⟩ := kv
    simp only [List.map_cons, List.mem_cons] at h
    push_neg at h
    have hk : (n == k) = false := by
      simp only [beq_eq_false_iff_ne, ne_eq]
      exact h.1
    simp [List.lookup, hk, ih h.2]

theorem dictSet_append_of_lookup_none (fields : Fields) (n : String) (v : JValue)
    (h : fields.lookup n = none) : dictSet fields n v = fields ++ [(n, v)] := by
  induction fields with
  | nil => rfl
  | cons kv rest ih =>
    obtain ⟨k, w⟩ := kv
    by_cases hk : k = n
    · exfalso
      rw [hk] at h
      simp [List.lookup] at h
    · have hk2 : (n == k) = false := by
        simp only [beq_eq_false_iff_ne, ne_eq]
        exact fun he => hk he.symm
      simp only [List.lookup, hk2] at h
      simp only [dictSet, if_neg hk, ih h, List.cons_append]

theorem lookup_append_none {β : Type} (l1 l2 : List (String × β)) (n : String)
    (h1 : l1.lookup n = none) (h2 : l2.lookup n = none) :
    (l1 ++ l2).lookup n = none := by
  induction l1 with
  | nil => simpa using h2
  | cons kv rest ih =>
    obtain ⟨k, v⟩ := kv
    cases hk : (n == k) with
    | true => simp [List.lookup, hk] at h1
    | false =>
      simp only [List.lookup, hk] at h1
      simpa [List.lookup, hk] using ih h1

theorem lookup_singleton_none {β : Type} (n m : String) (c : β) (h : n ≠ m) :
    ([(m, c)] : List (String × β)).lookup n = none := by
  have hk : (n == m) = false := by
    simp only [beq_eq_false_iff_ne, ne_eq]
    exact h
  simp [List.lookup, hk]

theorem rat_cast_num (q : ℚ) (h : q.den = 1) : ((q.num : Int) : ℚ) = q := by
  have h2 := Rat.num_div_den q
  rw [h] at h2
  simpa using h2

/-! ### Enum value-set lemmas -/

theorem foldl_enumResolve_no_match (vs : List (Option (Int × List Nat)))
    (s : List Nat) (acc : Int)
    (h : ∀ i c, (i, c) ∈ vs.filterMap id → c ≠ s) :
    vs.foldl
      (fun acc e =>
        match e with
        | some (idx, cst) => if cst = s then idx else acc
        | none => acc) acc = acc := by
  induction vs generalizing acc with
  | nil => rfl
  | cons e rest ih =>
    cases e with
    | none =>
      simp only [List.foldl_cons]
      exact ih acc (fun i c hm => h i c (by simpa using hm))
    | some p =>
      obtain ⟨i0, c0⟩ := p
      have hc0 : c0 ≠ s := h i0 c0 (by simp)
      simp only [List.foldl_cons, if_neg hc0]
      exact ih acc (fun i c hm => h i c (by simp [hm]))

theorem enumResolve_mem (vs : List (Option (Int × List Nat))) (idx : Int)
    (s : List Nat) (hmem : (idx, s) ∈ vs.filterMap id)
    (hnodup : ((vs.filterMap id).map Prod.snd).Nodup) :
    enumResolve vs (some (.str s)) = idx := by
  unfold enumResolve
  induction vs with
  | nil => simp at hmem
  | cons e rest ih =>
    cases e with
    | none =>
      simp only [List.filterMap_cons, id] at hmem hnodup
      simp only [List.foldl_cons]
      exact ih hmem hnodup
    | some p =>
      obtain ⟨i0, c0⟩ := p
      simp only [List.filterMap_cons, id] at hmem hnodup
      rcases List.mem_cons.mp hmem with heq | hrest
      · have hi : i0 = idx := by
          have := congrArg Prod.fst heq
          simpa using this.symm
        have hc : c0 = s := by
          have := congrArg Prod.snd heq
          simpa using this.symm
        subst hi
        subst hc
        simp only [List.foldl_cons, if_pos rfl]
        apply foldl_enumResolve_no_match
        intro i c hm hcs
        simp only [List.map_cons, List.nodup_cons] at hnodup
        exact hnodup.1 (hcs ▸ List.mem_map_of_mem Prod.snd hm)
      · have hc0 : c0 ≠ s := by
          intro hcs
          simp only [List.map_cons, List.nodup_cons] at hnodup
          exact hnodup.1 (hcs ▸ List.mem_map_of_mem Prod.snd hrest)
        simp only [List.foldl_cons, if_neg hc0]
        simp only [List.map_cons, List.nodup_cons] at hnodup
        exact ih hrest hnodup.2

theorem foldl_decEnum_no_match (vs : List (Option (Int × List Nat)))
    (idx : Int) (acc : Option (List Nat))
    (h : ∀ i c, (i, c) ∈ vs.filterMap id → i ≠ idx) :
    vs.foldl
      (fun acc e =>
        match e with
        | some (i, cst) => if i = idx then some cst else acc
        | none => acc) acc = acc := by
  induction vs generalizing acc with
  | nil => rfl
  | cons e rest ih =>
    cases e with
    | none =>
      simp only [List.foldl_cons]
      exact ih acc (fun i c hm => h i c (by simpa using hm))
    | some p =>
      obtain ⟨i0, c0⟩ := p
      have hi0 : i0 ≠ idx := h i0 c0 (by simp)
      simp only [List.foldl_cons, if_neg hi0]
      exact ih acc (fun i c hm => h i c (by simp [hm]))

theorem decEnumSet_mem (fields : Fields) (n : String)
    (vs : List (Option (Int × List Nat))) (idx : Int) (s : List Nat)
    (hmem : (idx, s) ∈ vs.filterMap id)
    (hnodup : ((vs.filterMap id).map Prod.fst).Nodup) :
    decEnumSet fields n vs idx = dictSet fields n (.str s) := by
  unfold decEnumSet
  have hfold : vs.foldl
      (fun acc e =>
        match e with
        | some (i, cst) => if i = idx then some cst else acc
        | none => acc) none = some s := by
    clear fields
    induction vs with
    | nil => simp at hmem
    | cons e rest ih =>
      cases e with
      | none =>
        simp only [List.filterMap_cons, id] at hmem hnodup
        simp only [List.foldl_cons]
        exact ih hmem hnodup
      | some p =>
        obtain ⟨i0, c0⟩ := p
        simp only [List.filterMap_cons, id] at hmem hnodup
        rcases List.mem_cons.mp hmem with heq | hrest
        · have hi : i0 = idx := by
            have := congrArg Prod.fst heq
            simpa using this.symm
          have hc : c0 = s := by
            have := congrArg Prod.snd heq
            simpa using this.symm
          subst hi
          subst hc
          simp only [List.foldl_cons, if_pos rfl]
          apply foldl_decEnum_no_match
          intro i c hm hii
          simp only [List.map_cons, List.nodup_cons] at hnodup
          exact hnodup.1 (hii ▸ List.mem_map_of_mem Prod.fst hm)
        · have hi0 : i0 ≠ idx := by
            intro hii
            simp only [List.map_cons, List.nodup_cons] at hnodup
            exact hnodup.1 (hii ▸ List.mem_map_of_mem Prod.fst hrest)
          simp only [List.foldl_cons, if_neg hi0]
          simp only [List.map_cons, List.nodup_cons] at hnodup
          exact ih hrest hnodup.2
  rw [hfold]

/-- Extract a definite value-set entry from the conformance check. -/
theorem conforms_enum_entry (vs : List (Option (Int × List Nat))) (s : List Nat)
    (h : (vs.filterMap id).any (fun e => e.2 == s) = true) :
    ∃ idx, (idx, s) ∈ vs.filterMap id := by
  rcases List.any_eq_true.mp h with ⟨e, hmem, he⟩
  obtain ⟨i, c⟩ := e
  refine ⟨i, ?_⟩
  have : c = s := by simpa using he
  rw [← this]
  exact hmem

/-! ### The round-trip induction -/

/-- Round-trip property at a given fuel: on the simple fragment the encode
walk succeeds with accumulator 0, and decoding the encoding — at any
position in a larger payload, into any dict with fresh keys — returns
exactly the original fields and lands exactly after the encoding. -/
def RT (fuel : Nat) : Prop :=
  ∀ (req : Option (List String)) (props : List (String × Schema)) (vf : Fields),
    sizeOf (Schema.obj req props none) ≤ fuel →
    simpleProp (.obj req props none) = true →
    conforms (.obj vf) (.obj req props none) = true →
    ∃ enc : List Nat,
      addProperties fuel (.obj vf) (.obj req props none) = (enc, .ok 0) ∧
      ∀ (pre rest : List Nat) (fields0 : Fields),
        (∀ nm, nm ∈ props.map Prod.fst → fields0.lookup nm = none) →
        getProperties fuel fields0 (pre ++ (enc ++ rest)) ((pre.length : Nat) : Int)
          (.obj req props none)
          = .ok (fields0 ++ vf, ((pre.length + enc.length : Nat) : Int))

theorem confFields_names (vf : Fields) (props : List (String × Schema))
    (h : confFields vf props = true) : vf.map Prod.fst = props.map Prod.fst := by
  induction vf generalizing props with
  | nil =>
    cases props with
    | nil => rfl
    | cons q qs => simp [confFields] at h
  | cons kv vrest ih =>
    obtain ⟨n1, c⟩ := kv
    cases props with
    | nil => simp [confFields] at h
    | cons q qs =>
      obtain ⟨n2, p⟩ := q
      simp only [confFields, Bool.and_eq_true, beq_iff_eq] at h
      simp only [List.map_cons, h.1.1, ih qs h.2]

theorem lookup_of_split {β : Type} (vfPre vrest : List (String × β)) (n : String) (c : β)
    (hnodup : ((vfPre ++ (n, c) :: vrest).map Prod.fst).Nodup) :
    (vfPre ++ (n, c) :: vrest).lookup n = some c := by
  apply lookup_append_cons
  intro hmem
  rw [List.map_append] at hnodup
  have hdisj := (List.nodup_append.mp hnodup).2.2
  exact hdisj hmem (by simp)

theorem pySlice_exact_size (pre mid rest : List Nat) (k : Nat) (hk : mid.length = k) :
    pySlice (pre ++ (mid ++ rest)) ((pre.length : Nat) : Int)
      (((pre.length : Nat) : Int) + ((k : Nat) : Int)) = mid := by
  subst hk
  exact pySlice_exact pre mid rest

theorem rtItems (f : Nat) (ihRT : RT f) (req0 : Option (List String))
    (props0 : List (String × Schema)) (anyRest : List Schema) (elems : List JValue)
    (hsz : sizeOf (Schema.obj req0 props0 none) ≤ f)
    (hsimple : simpleProp (.obj req0 props0 none) = true)
    (hconf : confItems elems (.obj req0 props0 none) = true) :
    ∃ encI : List Nat,
      encItemsGo (fun v s => addProperties f v s) elems
          ((Schema.obj req0 props0 none) :: anyRest) = (encI, .ok ()) ∧
      ∀ (pre rest : List Nat),
        decItemsGo (fun a b c2 d => getProperties f a b c2 d) (pre ++ (encI ++ rest))
            elems.length ((pre.length : Nat) : Int) ((Schema.obj req0 props0 none) :: anyRest)
          = .ok (elems, ((pre.length + encI.length : Nat) : Int)) := by
  induction elems with
  | nil =>
    refine ⟨[], rfl, ?_⟩
    intro pre rest
    simp [decItemsGo]
  | cons x xs ih =>
    simp only [confItems, Bool.and_eq_true] at hconf
    obtain ⟨hcx, hcxs⟩ := hconf
    obtain ⟨xf, rfl⟩ : ∃ xf, x = .obj xf := by
      cases x with
      | obj xf => exact ⟨xf, rfl⟩
      | num q => simp [conforms] at hcx
      | str s => simp [conforms] at hcx
      | arr es => simp [conforms] at hcx
    have hcf : conforms (.obj xf) (.obj req0 props0 none) = true := hcx
    obtain ⟨e1, henc1, hdec1⟩ := ihRT req0 props0 xf hsz hsimple hcf
    obtain ⟨eRest, hencR, hdecR⟩ := ih hcxs
    refine ⟨e1 ++ eRest, ?_, ?_⟩
    · simp only [encItemsGo, henc1, hencR]
    · intro pre rest
      have hassoc : pre ++ ((e1 ++ eRest) ++ rest) = pre ++ (e1 ++ (eRest ++ rest)) := by
        simp [List.append_assoc]
      rw [hassoc]
      simp only [List.length_cons, decItemsGo]
      rw [hdec1 pre (eRest ++ rest) [] (fun nm _ => rfl)]
      simp only [List.nil_append]
      have hassoc2 : pre ++ (e1 ++ (eRest ++ rest)) = (pre ++ e1) ++ (eRest ++ rest) := by
        simp [List.append_assoc]
      rw [hassoc2]
      have hlen1 : ((pre.length + e1.length : Nat) : Int) = (((pre ++ e1).length : Nat) : Int) := by
        simp
      rw [hlen1, hdecR (pre ++ e1) rest]
      simp
      omega

theorem rtProp (f : Nat) (ihRT : RT f) (req : Option (List String))
    (allProps : List (String × Schema)) (n : String) (p : Schema)
    (vfAll : Fields) (c : JValue) (bf : Int)
    (hsz : sizeOf p ≤ f)
    (hname : n ≠ "presenceVector")
    (hsimple : simpleProp p = true)
    (hconf : conforms c p = true)
    (hlook : vfAll.lookup n = some c) :
    ∃ encP : List Nat,
      encProp (fun v s => addProperties f v s) (.obj vfAll) req allProps n p bf
        = (encP, .ok bf) ∧
      ∀ (pre rest : List Nat) (fields0 : Fields) (piExp : Nat),
        fields0.lookup n = none →
        decProp (fun a b c2 d => getProperties f a b c2 d) fields0
          (pre ++ (encP ++ rest)) ((pre.length : Nat) : Int) n p none piExp
          = .ok (fields0 ++ [(n, c)], ((pre.length + encP.length : Nat) : Int),
              none, piExp) := by
  cases p with
  | obj req2 props2 bf2 =>
    have hbf2 : bf2 = none := by
      have h2 := hsimple
      simp only [simpleProp, Bool.and_eq_true] at h2
      exact Option.isNone_iff_eq_none.mp h2.1.1
    subst hbf2
    obtain ⟨vf2, rfl⟩ : ∃ vf2, c = .obj vf2 := by
      cases c with
      | obj vf2 => exact ⟨vf2, rfl⟩
      | num q => simp [conforms] at hconf
      | str s => simp [conforms] at hconf
      | arr es => simp [conforms] at hconf
    have hcf : confFields vf2 props2 = true := by
      simpa [conforms] using hconf
    obtain ⟨enc2, henc2, hdec2⟩ := ihRT req2 props2 vf2 hsz hsimple hconf
    refine ⟨enc2, ?_, ?_⟩
    · simp only [encProp, getattrJ, hlook, henc2]
    · intro pre rest fields0 piExp h0
      have hdec2x := hdec2 pre rest [] (fun nm _ => rfl)
      simp only [decProp, hdec2x, List.nil_append]
      rw [dictSet_append_of_lookup_none fields0 n _ h0]
  | num ty srO brO =>
    have h2 := hsimple
    simp only [simpleProp, Bool.and_eq_true] at h2
    obtain ⟨⟨hsr, hbr⟩, hsmall⟩ := h2
    have hsrO : srO = none := Option.isNone_iff_eq_none.mp hsr
    have hbrO : brO = none := Option.isNone_iff_eq_none.mp hbr
    subst hsrO
    subst hbrO
    obtain ⟨q, rfl⟩ : ∃ q, c = .num q := by
      cases c with
      | num q => exact ⟨q, rfl⟩
      | obj vf2 => simp [conforms] at hconf
      | str s => simp [conforms] at hconf
      | arr es => simp [conforms] at hconf
    have hconf2 : q.den = 1 ∧ inRange ty q.num = true := by
      simpa [conforms] using hconf
    obtain ⟨hden, hrange⟩ := hconf2
    obtain ⟨bs, hpack, hblen, hunpack⟩ := structUnpack_structPack ty q.num hrange
    have hsize : ty.size = bs.length := by
      rw [hblen, smallTy_size_eq ty hsmall]
    refine ⟨bs, ?_, ?_⟩
    · simp only [encProp, if_neg hname, getattrJ, hlook, hden, hpack]
      simp
    · intro pre rest fields0 piExp h0
      have hslice : pySlice (pre ++ (bs ++ rest)) ((pre.length : Nat) : Int)
          (((pre.length : Nat) : Int) + ((ty.size : Nat) : Int)) = bs :=
        pySlice_exact_size pre bs rest ty.size hsize.symm
      simp only [decProp, hslice, hunpack, if_neg hname]
      rw [dictSet_append_of_lookup_none fields0 n _ h0]
      rw [rat_cast_num q hden]
      have hidx : ((pre.length : Nat) : Int) + ((ty.size : Nat) : Int)
          = (((pre.length + bs.length : Nat)) : Int) := by
        rw [hsize]
        push_cast
        ring
      rw [hidx]
  | str jtO cO vsO brO mnO mxO =>
    have hcO : cO = none := by
      have h2 := hsimple
      simp only [simpleProp, Bool.and_eq_true] at h2
      exact Option.isNone_iff_eq_none.mp h2.1
    subst hcO
    cases vsO with
    | some vs =>
      cases jtO with
      | none => simp [simpleProp] at hsimple
      | some ty =>
        have h2 := hsimple
        simp only [simpleProp, Bool.and_eq_true] at h2
        obtain ⟨-, ⟨⟨⟨⟨hsmall, hok⟩, hbr⟩, hmn⟩, hmx⟩⟩ := h2
        have hbrO : brO = none := Option.isNone_iff_eq_none.mp hbr
        have hmnO : mnO = none := Option.isNone_iff_eq_none.mp hmn
        have hmxO : mxO = none := Option.isNone_iff_eq_none.mp hmx
        subst hbrO
        subst hmnO
        subst hmxO
        obtain ⟨s, rfl⟩ : ∃ s, c = .str s := by
          cases c with
          | str s => exact ⟨s, rfl⟩
          | obj vf2 => simp [conforms] at hconf
          | num q => simp [conforms] at hconf
          | arr es => simp [conforms] at hconf
        have hany : (vs.filterMap id).any (fun e => e.2 == s) = true := by
          simpa [conforms] using hconf
        obtain ⟨idx, hmem⟩ := conforms_enum_entry vs s hany
        simp only [enumEntriesOk, Bool.and_eq_true, decide_eq_true_eq,
          List.all_eq_true] at hok
        obtain ⟨⟨hnodupI, hnodupC⟩, hrangeAll⟩ := hok
        have hidxRange : inRange ty idx = true := by
          simpa using hrangeAll (idx, s) hmem
        obtain ⟨bs, hpack, hblen, hunpack⟩ := structUnpack_structPack ty idx hidxRange
        have hres : enumResolve vs (some (.str s)) = idx :=
          enumResolve_mem vs idx s hmem hnodupC
        have hsize : ty.size = bs.length := by
          rw [hblen, smallTy_size_eq ty hsmall]
        refine ⟨bs, ?_, ?_⟩
        · simp only [encProp, getattrJ, hlook, hres, hpack]
        · intro pre rest fields0 piExp h0
          have hslice : pySlice (pre ++ (bs ++ rest)) ((pre.length : Nat) : Int)
              (((pre.length : Nat) : Int) + ((ty.size : Nat) : Int)) = bs :=
            pySlice_exact_size pre bs rest ty.size hsize.symm
          have hset : decEnumSet fields0 n vs idx = dictSet fields0 n (.str s) :=
            decEnumSet_mem fields0 n vs idx s hmem hnodupI
          simp only [decProp, decStrTail, hslice, hunpack, hset]
          rw [dictSet_append_of_lookup_none fields0 n _ h0]
          have hidx : ((pre.length : Nat) : Int) + ((ty.size : Nat) : Int)
              = (((pre.length + bs.length : Nat)) : Int) := by
            rw [hsize]
            push_cast
            ring
          rw [hidx]
    | none =>
      -- plain strings are not in the fragment: their encode raises
      simp [simpleProp] at hsimple
  | arr jtO ivO anyOf miO maO =>
    cases jtO with
    | none => simp [simpleProp] at hsimple
    | some ty =>
      cases ivO with
      | none => simp [simpleProp] at hsimple
      | some isv =>
        cases anyOf with
        | nil => simp [simpleProp] at hsimple
        | cons s0 anyRest =>
          have h2 := hsimple
          simp only [simpleProp, Bool.and_eq_true, decide_eq_true_eq] at h2
          obtain ⟨⟨⟨hisv, hsmall⟩, hobj⟩, hs0⟩ := h2
          subst hisv
          obtain ⟨req0, props0, bf0, rfl⟩ :
              ∃ req0 props0 bf0, s0 = .obj req0 props0 bf0 := by
            cases s0 with
            | obj a b d => exact ⟨a, b, d, rfl⟩
            | num _ _ _ => simp [isObjSchema] at hobj
            | str _ _ _ _ _ _ => simp [isObjSchema] at hobj
            | arr _ _ _ _ _ => simp [isObjSchema] at hobj
          have hbf0 : bf0 = none := by
            have h3 := hs0
            simp only [simpleProp, Bool.and_eq_true] at h3
            exact Option.isNone_iff_eq_none.mp h3.1.1
          subst hbf0
          obtain ⟨elems, rfl⟩ : ∃ elems, c = .arr elems := by
            cases c with
            | arr es => exact ⟨es, rfl⟩
            | obj vf2 => simp [conforms] at hconf
            | num q => simp [conforms] at hconf
            | str s => simp [conforms] at hconf
          have hconf2 : inRange ty (elems.length : Int) = true ∧
              confItems elems (.obj req0 props0 none) = true := by
            simpa [conforms] using hconf
          obtain ⟨hlenR, hitemsC⟩ := hconf2
          obtain ⟨lenB, hpackL, hblenL, hunpackL⟩ :=
            structUnpack_structPack ty (elems.length : Int) hlenR
          have hsz0 : sizeOf (Schema.obj req0 props0 none) ≤ f := by
            have hs := hsz
            simp only [Schema.arr.sizeOf_spec, List.cons.sizeOf_spec] at hs
            omega
          obtain ⟨encI, hencI, hdecI⟩ :=
            rtItems f ihRT req0 props0 anyRest elems hsz0 hs0 hitemsC
          have hsizeL : ty.size = lenB.length := by
            rw [hblenL, smallTy_size_eq ty hsmall]
          refine ⟨lenB ++ encI, ?_, ?_⟩
          · simp only [encProp, getattrJ, hlook, hpackL, hencI]
          · intro pre rest fields0 piExp h0
            have hassoc : pre ++ ((lenB ++ encI) ++ rest)
                = pre ++ (lenB ++ (encI ++ rest)) := by
              simp [List.append_assoc]
            rw [hassoc]
            have hslice : pySlice (pre ++ (lenB ++ (encI ++ rest)))
                ((pre.length : Nat) : Int)
                (((pre.length : Nat) : Int) + ((ty.size : Nat) : Int)) = lenB :=
              pySlice_exact_size pre lenB (encI ++ rest) ty.size hsizeL.symm
            have hvar : ¬ ((some false : Option Bool) = some true) := by simp
            have hassoc2 : pre ++ (lenB ++ (encI ++ rest))
                = (pre ++ lenB) ++ (encI ++ rest) := by
              simp [List.append_assoc]
            have hidx1 : ((pre.length : Nat) : Int) + ((ty.size : Nat) : Int)
                = ((((pre ++ lenB).length : Nat)) : Int) := by
              rw [hsizeL]
              simp
            have hslice2 : pySlice (pre ++ (lenB ++ (encI ++ rest)))
                ((pre.length : Nat) : Int) ((((pre ++ lenB).length : Nat)) : Int) = lenB := by
              rw [← hidx1]
              exact hslice
            have hdecIx := hdecI (pre ++ lenB) rest
            rw [← hassoc2] at hdecIx
            simp only [decProp, if_neg hvar, hidx1, hslice2, hunpackL,
              Int.toNat_natCast, hdecIx]
            rw [dictSet_append_of_lookup_none fields0 n _ h0]
            have hidx2 : ((((pre ++ lenB).length + encI.length : Nat)) : Int)
                = (((pre.length + (lenB ++ encI).length : Nat)) : Int) := by
              push_cast
              simp
              ring
            rw [hidx2]

theorem rtProps (f : Nat) (ihRT : RT f) (req : Option (List String))
    (allProps : List (String × Schema)) :
    ∀ (props : List (String × Schema)) (vfAll vfPre vfSuffix : Fields) (bf : Int),
      sizeOf props ≤ f →
      (props.map Prod.fst).Nodup →
      simpleProps props = true →
      confFields vfSuffix props = true →
      vfAll = vfPre ++ vfSuffix →
      (vfAll.map Prod.fst).Nodup →
      ∃ enc : List Nat,
        encPropsGo (fun v s => addProperties f v s) (.obj vfAll) req allProps props bf
          = (enc, .ok bf) ∧
        ∀ (pre rest : List Nat) (fields0 : Fields) (piExp : Nat),
          (∀ nm, nm ∈ props.map Prod.fst → fields0.lookup nm = none) →
          decPropsGo (fun a b c2 d => getProperties f a b c2 d) (pre ++ (enc ++ rest))
              req fields0 ((pre.length : Nat) : Int) props none piExp
            = .ok (fields0 ++ vfSuffix, ((pre.length + enc.length : Nat) : Int)) := by
  intro props
  induction props with
  | nil =>
    intro vfAll vfPre vfSuffix bf _ _ _ hconf hsplit _
    have hsfx : vfSuffix = [] := by
      cases vfSuffix with
      | nil => rfl
      | cons kv r => simp [confFields] at hconf
    subst hsfx
    refine ⟨[], rfl, ?_⟩
    intro pre rest fields0 piExp _
    simp [decPropsGo]
  | cons q prest ih =>
    obtain ⟨n, p⟩ := q
    intro vfAll vfPre vfSuffix bf hsz hnodupP hsimple hconf hsplit hnodupV
    cases vfSuffix with
    | nil => simp [confFields] at hconf
    | cons kv vrest =>
      obtain ⟨n1, c⟩ := kv
      simp only [confFields, Bool.and_eq_true, beq_iff_eq] at hconf
      obtain ⟨⟨hn1, hcp⟩, hcrest⟩ := hconf
      subst n1
      simp only [simpleProps, Bool.and_eq_true, decide_eq_true_eq] at hsimple
      obtain ⟨⟨hname, hsp⟩, hsps⟩ := hsimple
      have hlook : vfAll.lookup n = some c := by
        rw [hsplit]
        exact lookup_of_split vfPre vrest n c (hsplit ▸ hnodupV)
      have hszp : sizeOf p ≤ f := by
        simp only [List.cons.sizeOf_spec, Prod.mk.sizeOf_spec] at hsz
        omega
      obtain ⟨encP, hencP, hdecP⟩ :=
        rtProp f ihRT req allProps n p vfAll c bf hszp hname hsp hcp hlook
      have hszr : sizeOf prest ≤ f := by
        simp only [List.cons.sizeOf_spec] at hsz
        omega
      have hnodupP2 : (prest.map Prod.fst).Nodup := by
        simp only [List.map_cons, List.nodup_cons] at hnodupP
        exact hnodupP.2
      obtain ⟨encR, hencR, hdecR⟩ :=
        ih vfAll (vfPre ++ [(n, c)]) vrest bf hszr hnodupP2 hsps hcrest
          (by rw [hsplit]; simp) hnodupV
      refine ⟨encP ++ encR, ?_, ?_⟩
      · simp only [encPropsGo, hencP, hencR]
      · intro pre rest fields0 piExp hdisj
        have hassoc : pre ++ ((encP ++ encR) ++ rest)
            = pre ++ (encP ++ (encR ++ rest)) := by
          simp [List.append_assoc]
        rw [hassoc]
        have h0 : fields0.lookup n = none := hdisj n (by simp)
        have hdecPx := hdecP pre (encR ++ rest) fields0 piExp h0
        simp only [decPropsGo, pvGate, hdecPx]
        have hassoc2 : pre ++ (encP ++ (encR ++ rest))
            = (pre ++ encP) ++ (encR ++ rest) := by
          simp [List.append_assoc]
        have hdisj2 : ∀ nm, nm ∈ prest.map Prod.fst →
            (fields0 ++ [(n, c)]).lookup nm = none := by
          intro nm hm
          apply lookup_append_none
          · exact hdisj nm (by simp [hm])
          · apply lookup_singleton_none
            intro hnm
            simp only [List.map_cons, List.nodup_cons] at hnodupP
            exact hnodupP.1 (hnm ▸ hm)
        have hdecRx := hdecR (pre ++ encP) rest (fields0 ++ [(n, c)]) piExp hdisj2
        rw [← hassoc2] at hdecRx
        have hidx : (((pre.length + encP.length : Nat)) : Int)
            = (((pre ++ encP).length : Nat) : Int) := by simp
        rw [hidx, hdecRx]
        have hlist : (fields0 ++ [(n, c)]) ++ vrest = fields0 ++ (n, c) :: vrest := by
          simp
        rw [hlist]
        have hidx2 : ((((pre ++ encP).length + encR.length : Nat)) : Int)
            = (((pre.length + (encP ++ encR).length : Nat)) : Int) := by
          simp [List.length_append]
          ring
        rw [hidx2]

/-- The round-trip holds at every fuel at least the schema size. -/
theorem rtMain : ∀ fuel, RT fuel := by
  intro fuel
  induction fuel with
  | zero =>
    intro req props vf hsz _ _
    exfalso
    simp only [Schema.obj.sizeOf_spec] at hsz
    omega
  | succ f ih =>
    intro req props vf hsz hsimple hconf
    have hcomponents := hsimple
    simp only [simpleProp, Bool.and_eq_true, decide_eq_true_eq] at hcomponents
    obtain ⟨⟨-, hnodupP⟩, hsps⟩ := hcomponents
    have hcf : confFields vf props = true := by
      simpa [conforms] using hconf
    have hnodupV : (vf.map Prod.fst).Nodup := by
      rw [confFields_names vf props hcf]
      exact hnodupP
    have hszP : sizeOf props ≤ f := by
      simp only [Schema.obj.sizeOf_spec] at hsz
      omega
    obtain ⟨enc, henc, hdec⟩ :=
      rtProps f ih req props props vf [] vf 0 hszP hnodupP hsps hcf (by simp) hnodupV
    refine ⟨enc, ?_, ?_⟩
    · simpa only [addProperties] using henc
    · intro pre rest fields0 hdisj
      have hdecx := hdec pre rest fields0 0 hdisj
      simpa only [getProperties] using hdecx

/-- C1 (amended): the claimed round-trip fails for every plain string
property — fixed or variable length — because the string pack at
message_serializer.py:258/270 receives a Python 3 `str` and raises
`struct.error` (see the counterexample); it also fails for
`bitRange`/`bitField` fields and the two `long` types.  On the remaining
fragment it holds.  Part 1: for every simple schema (objects without
`bitField`, plain integer numbers, string enums with injective value sets —
these pack as integers, never through the `'s'` format — and homogeneous
arrays of objects) and every conforming value, `_getProperties` applied to
the payload produced by `_addProperties` yields the value again exactly,
for any sufficient recursion fuel.  Part 2: a scaled numeric property
round-trips to within `scaleFactor`: the decoded value `d` satisfies
`|d − r| ≤ scaleFactor`. -/
theorem C1_roundtrip_amended :
    (∀ (fuel : Nat) (req : Option (List String)) (props : List (String × Schema))
        (vf : Fields),
      sizeOf (Schema.obj req props none) ≤ fuel →
      simpleProp (.obj req props none) = true →
      conforms (.obj vf) (.obj req props none) = true →
      ∃ enc : List Nat,
        addProperties fuel (.obj vf) (.obj req props none) = (enc, .ok 0) ∧
        getProperties fuel [] enc 0 (.obj req props none)
          = .ok (vf, (enc.length : Int))) ∧
    (∀ (fuel : Nat) (req : Option (List String)) (nm : String) (ty : JausTy)
        (sr : ScaleRange) (r : ℚ),
      1 ≤ fuel → nm ≠ "presenceVector" → smallTy ty = true →
      0 < sr.scaleFactor →
      inRange ty (pyRound ((r - sr.bias) / sr.scaleFactor)) = true →
      ∃ (enc : List Nat) (d : ℚ),
        addProperties fuel (.obj [(nm, .num r)])
            (.obj req [(nm, .num ty (some sr) none)] none) = (enc, .ok 0) ∧
        getProperties fuel [] enc 0 (.obj req [(nm, .num ty (some sr) none)] none)
          = .ok ([(nm, .num d)], (enc.length : Int)) ∧
        |d - r| ≤ sr.scaleFactor) := by
  constructor
  · intro fuel req props vf hsz hs hc
    obtain ⟨enc, henc, hdec⟩ := rtMain fuel req props vf hsz hs hc
    refine ⟨enc, henc, ?_⟩
    have h := hdec [] [] [] (fun nm _ => rfl)
    simpa using h
  · intro fuel req nm ty sr r hfuel hname hsmall hfac hin
    obtain ⟨g, rfl⟩ : ∃ g, fuel = g + 1 := ⟨fuel - 1, by omega⟩
    obtain ⟨bs, hpack, hblen, hunpack⟩ :=
      structUnpack_structPack ty (pyRound ((r - sr.bias) / sr.scaleFactor)) hin
    have hsize : ty.size = bs.length := by
      rw [hblen, smallTy_size_eq ty hsmall]
    refine ⟨bs, (pyRound ((r - sr.bias) / sr.scaleFactor) : ℚ) * sr.scaleFactor + sr.bias,
      ?_, ?_, ?_⟩
    · simp only [addProperties, encPropsGo, encProp, if_neg hname, getattrJ]
      simp [List.lookup, hfac.ne', hpack]
    · have hslice : pySlice bs (0 : Int) ((ty.size : Nat) : Int) = bs := by
        have h := pySlice_exact_size [] bs [] ty.size hsize.symm
        simpa using h
      simp only [getProperties, decPropsGo, pvGate, decProp, zero_add, hslice,
        hunpack, if_neg hname]
      simp [dictSet, hsize]
    · have hb := pyRound_dist ((r - sr.bias) / sr.scaleFactor)
      have hkey : (pyRound ((r - sr.bias) / sr.scaleFactor) : ℚ) * sr.scaleFactor + sr.bias - r
          = ((pyRound ((r - sr.bias) / sr.scaleFactor) : ℚ)
              - (r - sr.bias) / sr.scaleFactor) * sr.scaleFactor := by
        field_simp
        ring
      rw [hkey, abs_mul, abs_of_pos hfac]
      calc |(pyRound ((r - sr.bias) / sr.scaleFactor) : ℚ)
              - (r - sr.bias) / sr.scaleFactor| * sr.scaleFactor
          ≤ (1/2) * sr.scaleFactor := by
            apply mul_le_mul_of_nonneg_right hb (le_of_lt hfac)
        _ ≤ sr.scaleFactor := by linarith

/-- C1 witness: part 1 at a one-byte-number schema with value 7, part 2 at a
scaled property with bias 0, scaleFactor 1/2 and real value 7/4 (stored
integer `round(3.5) = 4`, decoded value 2, error 1/4 ≤ 1/2). -/
theorem C1_roundtrip_amended_witness :
    (∃ enc : List Nat,
      addProperties 1000 (.obj [("a", .num 7)])
          (.obj (some ["a"]) [("a", .num .ubyte none none)] none) = (enc, .ok 0) ∧
      getProperties 1000 [] enc 0 (.obj (some ["a"]) [("a", .num .ubyte none none)] none)
        = .ok ([("a", .num 7)], (enc.length : Int))) ∧
    (∃ (enc : List Nat) (d : ℚ),
      addProperties 1000 (.obj [("x", .num (7/4))])
          (.obj (some ["x"]) [("x", .num .ubyte (some ⟨0, 1/2⟩) none)] none) = (enc, .ok 0) ∧
      getProperties 1000 [] enc 0
          (.obj (some ["x"]) [("x", .num .ubyte (some ⟨0, 1/2⟩) none)] none)
        = .ok ([("x", .num d)], (enc.length : Int)) ∧
      |d - 7/4| ≤ (⟨0, 1/2⟩ : ScaleRange).scaleFactor) :=
  ⟨C1_roundtrip_amended.1 1000 (some ["a"]) [("a", .num .ubyte none none)]
      [("a", .num 7)] (by decide)
      (by simp +decide [simpleProp, simpleProps, smallTy])
      (by simp +decide [conforms, confFields, inRange]),
    C1_roundtrip_amended.2 1000 (some ["x"]) "x" .ubyte ⟨0, 1/2⟩ (7/4)
      (by decide) (by decide) (by decide)
      (by show (0 : ℚ) < 1/2; norm_num)
      (by
        show inRange .ubyte (pyRound ((7/4 - (0 : ℚ)) / (1/2))) = true
        have hq : (7/4 - (0 : ℚ)) / (1/2) = 7/2 := by norm_num
        rw [hq]
        have hfl : ⌊(7 : ℚ)/2⌋ = 3 := by
          rw [Int.floor_eq_iff]
          constructor <;> norm_num
        simp only [pyRound, hfl]
        norm_num [inRange, JausTy.signed, JausTy.packWidth])⟩

end IopJson
